import Mathlib

/-!
Verification of the HumanLogica kernel (mary.py), world layer (helena.py)
and loop runtime against its specification.  The Python source is embedded
shallowly: classes become structures, methods become pure functions that
thread the state explicitly, `time.time()` becomes an explicit `now`
argument, and user callbacks (conditions, actions) become functions from
the invocation index to `Except String Bool` (an exception is `.error msg`).
-/

/-! ### SHA-256 (hashlib.sha256, FIPS 180-4), used by LedgerEntry.compute_hash -/

def w32 (x : Nat) : Nat := x % 4294967296

def rotr32 (x n : Nat) : Nat := w32 ((x >>> n) ||| (x <<< (32 - n)))

def utf8Bytes (c : Nat) : List Nat :=
  if c < 128 then [c]
  else if c < 2048 then [192 ||| (c >>> 6), 128 ||| (c &&& 63)]
  else if c < 65536 then
    [224 ||| (c >>> 12), 128 ||| ((c >>> 6) &&& 63), 128 ||| (c &&& 63)]
  else
    [240 ||| (c >>> 18), 128 ||| ((c >>> 12) &&& 63),
     128 ||| ((c >>> 6) &&& 63), 128 ||| (c &&& 63)]

def strBytes (s : String) : List Nat :=
  (s.data.map fun c => utf8Bytes c.toNat).flatten

def sha256Pad (msg : List Nat) : List Nat :=
  let len := msg.length
  let zeros := (119 - (len % 64)) % 64
  msg ++ [128] ++ List.replicate zeros 0 ++
    [(len * 8) >>> 56 &&& 255, (len * 8) >>> 48 &&& 255,
     (len * 8) >>> 40 &&& 255, (len * 8) >>> 32 &&& 255,
     (len * 8) >>> 24 &&& 255, (len * 8) >>> 16 &&& 255,
     (len * 8) >>> 8 &&& 255, (len * 8) &&& 255]

def bytesToWordsGo : Nat → List Nat → List Nat
  | 0, _ => []
  | _, [] => []
  | fuel + 1, b0 :: b1 :: b2 :: b3 :: rest =>
      (b0 <<< 24 ||| b1 <<< 16 ||| b2 <<< 8 ||| b3) :: bytesToWordsGo fuel rest
  | _ + 1, _ => []

def bytesToWords (bs : List Nat) : List Nat := bytesToWordsGo bs.length bs

def sha256K : List Nat :=
  [1116352408, 1899447441, 3049323471, 3921009573, 961987163,
   1508970993, 2453635748, 2870763221, 3624381080, 310598401,
   607225278, 1426881987, 1925078388, 2162078206, 2614888103,
   3248222580, 3835390401, 4022224774, 264347078, 604807628,
   770255983, 1249150122, 1555081692, 1996064986, 2554220882,
   2821834349, 2952996808, 3210313671, 3336571891, 3584528711,
   113926993, 338241895, 666307205, 773529912, 1294757372,
   1396182291, 1695183700, 1986661051, 2177026350, 2456956037,
   2730485921, 2820302411, 3259730800, 3345764771, 3516065817,
   3600352804, 4094571909, 275423344, 430227734, 506948616,
   659060556, 883997877, 958139571, 1322822218, 1537002063,
   1747873779, 1955562222, 2024104815, 2227730452, 2361852424,
   2428436474, 2756734187, 3204031479, 3329325298]

def sha256Extend : Nat → List Nat → List Nat
  | 0, ws => ws
  | fuel + 1, ws =>
      let n := ws.length
      let w15 := ws.getD (n - 15) 0
      let w2 := ws.getD (n - 2) 0
      let s0 := rotr32 w15 7 ^^^ rotr32 w15 18 ^^^ (w15 >>> 3)
      let s1 := rotr32 w2 17 ^^^ rotr32 w2 19 ^^^ (w2 >>> 10)
      sha256Extend fuel (ws ++ [w32 (ws.getD (n - 16) 0 + s0 + ws.getD (n - 7) 0 + s1)])

def sha256Round (st : List Nat) (k w : Nat) : List Nat :=
  match st with
  | [a, b, c, d, e, f, g, h] =>
      let bigS1 := rotr32 e 6 ^^^ rotr32 e 11 ^^^ rotr32 e 25
      let ch := (e &&& f) ^^^ ((4294967295 - e) &&& g)
      let temp1 := w32 (h + bigS1 + ch + k + w)
      let bigS0 := rotr32 a 2 ^^^ rotr32 a 13 ^^^ rotr32 a 22
      let maj := (a &&& b) ^^^ (a &&& c) ^^^ (b &&& c)
      let temp2 := w32 (bigS0 + maj)
      [w32 (temp1 + temp2), a, b, c, w32 (d + temp1), e, f, g]
  | st => st

def sha256Rounds : List Nat → List Nat → List Nat → List Nat
  | st, k :: ks, w :: ws => sha256Rounds (sha256Round st k w) ks ws
  | st, _, _ => st

def sha256Compress (st : List Nat) (block : List Nat) : List Nat :=
  let ws := sha256Extend 48 (bytesToWords block)
  let st2 := sha256Rounds st sha256K ws
  (st.zip st2).map fun p => w32 (p.1 + p.2)

def sha256BlocksGo : Nat → List Nat → List Nat → List Nat
  | 0, st, _ => st
  | _, st, [] => st
  | fuel + 1, st, bytes => sha256BlocksGo fuel (sha256Compress st (bytes.take 64)) (bytes.drop 64)

def hexDigit (n : Nat) : Char :=
  if n < 10 then Char.ofNat (48 + n) else Char.ofNat (87 + n)

def wordHex (x : Nat) : List Char :=
  [hexDigit (x >>> 28 &&& 15), hexDigit (x >>> 24 &&& 15),
   hexDigit (x >>> 20 &&& 15), hexDigit (x >>> 16 &&& 15),
   hexDigit (x >>> 12 &&& 15), hexDigit (x >>> 8 &&& 15),
   hexDigit (x >>> 4 &&& 15), hexDigit (x &&& 15)]

def sha256Init : List Nat :=
  [1779033703, 3144134277, 1013904242, 2773480762,
   1359893119, 2600822924, 528734635, 1541459225]

def sha256Hex (s : String) : String :=
  let padded := sha256Pad (strBytes s)
  let final := sha256BlocksGo padded.length sha256Init padded
  String.mk (final.map wordHex).flatten

def sha256Hex16 (s : String) : String := (sha256Hex s).take 16

/-! ### Part I and II of mary.py — enums and data structures -/

inductive Status where
  | active
  | inactive
  | broken
deriving DecidableEq

inductive SpeakerStatus where
  | alive
  | suspended
deriving DecidableEq

inductive Version where
  | current
  | superseded
  | expired
deriving DecidableEq

inductive RequestStatus where
  | pending
  | accepted
  | refused
  | expired
deriving DecidableEq

/-- Dynamic Python values stored in memory and carried by requests. -/
inductive Value where
  | vint : Int → Value
  | vstr : String → Value
  | vbool : Bool → Value
  | vnull
deriving DecidableEq

/-- Stand-in for Python repr of an optional value, used for state snapshots. -/
def renderOpt : Option Value → String
  | none => "None"
  | some (Value.vint n) => toString n
  | some (Value.vstr s) => s
  | some (Value.vbool b) => toString b
  | some Value.vnull => "None"

structure Speaker where
  id : Nat
  name : String
  createdAt : Nat
  status : SpeakerStatus
deriving DecidableEq

structure LedgerEntry where
  entryId : Nat
  speakerId : Nat
  operation : String
  condition : Option String
  conditionResult : Option Bool
  action : String
  status : Option Status
  stateBefore : Option String
  stateAfter : Option String
  timestamp : Nat
  prevHash : String
  entryHash : String
  breakReason : Option String
deriving DecidableEq

structure Request where
  requestId : Nat
  fromSpeaker : Nat
  toSpeaker : Nat
  action : String
  data : Option Value
  status : RequestStatus
  createdAt : Nat
  expiresAt : Option Nat
  responseData : Option Value
deriving DecidableEq

/-- A Human Logic expression.  Callbacks (`condition`, `action_fn`) are
functions of the invocation index; `.error msg` models a raised exception. -/
structure Expression where
  expressionId : Nat
  speakerId : Nat
  condition : Option (Nat → Except String Bool)
  conditionLabel : String
  action : String
  actionFn : Option (Nat → Except String Bool)
  createdAt : Nat
  version : Version
  status : Option Status
  scopeUntil : Option Nat
  isRefusal : Bool
  loopCondition : Option (Nat → Bool)
  loopMax : Option Nat

/-! ### Part III of mary.py — the Ledger -/

/-- LedgerEntry.compute_hash: sha256 of the colon-joined six fields,
first 16 hex characters. -/
def LedgerEntry.compute_hash (e : LedgerEntry) : String :=
  sha256Hex16 (toString e.entryId ++ ":" ++ toString e.speakerId ++ ":" ++
    e.operation ++ ":" ++ e.action ++ ":" ++ toString e.timestamp ++ ":" ++ e.prevHash)

structure Ledger where
  entries : List LedgerEntry
  lastHash : String

def Ledger.init : Ledger := { entries := [], lastHash := "genesis" }

def Ledger.append (l : Ledger) (now sid : Nat) (operation : String)
    (condition : Option String) (conditionResult : Option Bool) (action : String)
    (status : Option Status) (stateBefore stateAfter : Option String)
    (breakReason : Option String) : Ledger :=
  let e0 : LedgerEntry :=
    { entryId := l.entries.length, speakerId := sid, operation := operation,
      condition := condition, conditionResult := conditionResult, action := action,
      status := status, stateBefore := stateBefore, stateAfter := stateAfter,
      timestamp := now, prevHash := l.lastHash, entryHash := "",
      breakReason := breakReason }
  let e := { e0 with entryHash := e0.compute_hash }
  { entries := l.entries ++ [e], lastHash := e.entryHash }

def Ledger.verifyFrom : String → List LedgerEntry → Bool
  | _, [] => true
  | expected, e :: rest =>
      if e.prevHash ≠ expected then false
      else if e.entryHash ≠ e.compute_hash then false
      else Ledger.verifyFrom e.entryHash rest

/-- Ledger.verify_integrity: walk the hash chain. -/
def Ledger.verify_integrity (l : Ledger) : Bool :=
  Ledger.verifyFrom "genesis" l.entries

/-- In-place mutation of the i-th stored entry (Python attribute assignment
on a list element), the tampering primitive of the spec's integrity test. -/
def tamperAt (f : LedgerEntry → LedgerEntry) : List LedgerEntry → Nat → List LedgerEntry
  | [], _ => []
  | e :: rest, 0 => f e :: rest
  | e :: rest, i + 1 => e :: tamperAt f rest i

def Ledger.tamper (l : Ledger) (i : Nat) (f : LedgerEntry → LedgerEntry) : Ledger :=
  { l with entries := tamperAt f l.entries i }

/-! ### Part IV of mary.py — Memory (speaker-partitioned) -/

def alistSet {α β : Type} [BEq α] (l : List (α × β)) (k : α) (v : β) : List (α × β) :=
  if l.any (fun p => p.1 == k) then
    l.map (fun p => if p.1 == k then (k, v) else p)
  else l ++ [(k, v)]

structure Memory where
  partitions : List (Nat × List (String × Value))

def Memory.init : Memory := { partitions := [] }

def Memory.create_partition (m : Memory) (sid : Nat) : Memory :=
  if m.partitions.any (fun p => p.1 == sid) then m
  else { partitions := m.partitions ++ [(sid, [])] }

def Memory.read (m : Memory) (owner : Nat) (name : String) : Option Value :=
  match m.partitions.find? (fun p => p.1 == owner) with
  | none => none
  | some p => (p.2.find? (fun q => q.1 == name)).map (fun q => q.2)

def Memory.write (m : Memory) (caller : Nat) (name : String) (v : Value) :
    Memory × Bool × Option Value :=
  match m.partitions.find? (fun p => p.1 == caller) with
  | none => (m, false, none)
  | some p =>
      let old := (p.2.find? (fun q => q.1 == name)).map (fun q => q.2)
      ({ partitions := m.partitions.map fun q =>
           if q.1 == caller then (q.1, alistSet q.2 name v) else q },
       true, old)

/-! ### Part V of mary.py — Speaker Registry -/

structure SpeakerRegistry where
  speakers : List (Nat × Speaker)
  nextId : Nat

def SpeakerRegistry.init : SpeakerRegistry := { speakers := [], nextId := 0 }

def SpeakerRegistry.create (r : SpeakerRegistry) (name : String) (now : Nat) :
    SpeakerRegistry × Speaker :=
  let sp : Speaker := { id := r.nextId, name := name, createdAt := now, status := .alive }
  ({ speakers := r.speakers ++ [(sp.id, sp)], nextId := r.nextId + 1 }, sp)

def SpeakerRegistry.get (r : SpeakerRegistry) (sid : Nat) : Option Speaker :=
  (r.speakers.find? (fun p => p.1 == sid)).map (fun p => p.2)

def SpeakerRegistry.authenticate (r : SpeakerRegistry) (sid : Nat) : Bool :=
  match r.get sid with
  | none => false
  | some sp => sp.status == .alive

def SpeakerRegistry.suspend (r : SpeakerRegistry) (sid : Nat) : SpeakerRegistry × Bool :=
  match r.get sid with
  | none => (r, false)
  | some _ =>
      ({ r with speakers := r.speakers.map fun p =>
           if p.1 == sid then (p.1, { p.2 with status := SpeakerStatus.suspended }) else p },
       true)

/-! ### Part VI of mary.py — Request Bus -/

structure RequestBus where
  pending : List Request
  resolved : List Request
  nextId : Nat

def RequestBus.init : RequestBus := { pending := [], resolved := [], nextId := 0 }

def RequestBus.create_request (bus : RequestBus) (fromSp toSp : Nat) (action : String)
    (data : Option Value) (now : Nat) (expiresAt : Option Nat) : RequestBus × Request :=
  let req : Request :=
    { requestId := bus.nextId, fromSpeaker := fromSp, toSpeaker := toSp,
      action := action, data := data, status := .pending, createdAt := now,
      expiresAt := expiresAt, responseData := none }
  ({ bus with nextId := bus.nextId + 1, pending := bus.pending ++ [req] }, req)

def RequestBus.get_request (bus : RequestBus) (rid : Nat) : Option Request :=
  (bus.pending ++ bus.resolved).find? (fun r => r.requestId == rid)

def RequestBus.respond (bus : RequestBus) (rid responder : Nat) (accept : Bool)
    (responseData : Option Value) : RequestBus × Option Request :=
  match bus.pending.find? (fun r => r.requestId == rid) with
  | none => (bus, none)
  | some req =>
      if req.toSpeaker ≠ responder then (bus, none)
      else if req.status ≠ RequestStatus.pending then (bus, none)
      else
        let req' := { req with
          status := if accept then RequestStatus.accepted else RequestStatus.refused,
          responseData := responseData }
        ({ bus with pending := bus.pending.eraseP (fun r => r.requestId == rid),
                    resolved := bus.resolved ++ [req'] },
         some req')

/-! ### Part VII of mary.py — the Evaluator -/

/-- Python truthiness of `expr.scope_until and time.time() > expr.scope_until`:
a scope of 0 (0.0 is falsy) never expires. -/
def scopeExpired (now : Nat) : Option Nat → Bool
  | none => false
  | some su => su ≠ 0 && now > su

/-- Steps 3b–4 of Evaluator.evaluate: refusal inversion, terminal status,
terminal ledger entry. -/
def evaluateFinish (now : Nat) (expr : Expression) (led : Ledger) (fulfilled : Bool) :
    Expression × Ledger × Option Status :=
  let fulfilled := if expr.isRefusal then !fulfilled else fulfilled
  if fulfilled then
    ({ expr with status := some Status.active },
     led.append now expr.speakerId "evaluate" (some expr.conditionLabel) (some true)
       expr.action (some Status.active) none none none,
     some Status.active)
  else
    ({ expr with status := some Status.broken },
     led.append now expr.speakerId "evaluate" (some expr.conditionLabel) (some true)
       expr.action (some Status.broken) none none (some "action_not_fulfilled"),
     some Status.broken)

/-- Evaluator.evaluate.  `k` is the invocation index handed to the callbacks
(0 for a plain submit, the iteration count inside a loop). -/
def Evaluator.evaluate (now k : Nat) (reg : SpeakerRegistry) (led : Ledger)
    (expr : Expression) : Expression × Ledger × Option Status :=
  if reg.authenticate expr.speakerId = false then
    (expr,
     led.append now expr.speakerId "evaluate" (some expr.conditionLabel) none
       expr.action (some Status.broken) none none (some "speaker_not_found_or_suspended"),
     some Status.broken)
  else if expr.version ≠ Version.current then
    (expr, led, none)
  else if scopeExpired now expr.scopeUntil then
    ({ expr with version := Version.expired },
     led.append now expr.speakerId "expire" (some expr.conditionLabel) none
       expr.action none none none none,
     none)
  else
    let conditionMet :=
      match expr.condition with
      | none => true
      | some f => match f k with | Except.ok b => b | Except.error _ => false
    if conditionMet = false then
      ({ expr with status := some Status.inactive },
       led.append now expr.speakerId "evaluate" (some expr.conditionLabel) (some false)
         expr.action (some Status.inactive) none none none,
       some Status.inactive)
    else
      match expr.actionFn with
      | some f =>
          match f k with
          | Except.error msg =>
              ({ expr with status := some Status.broken },
               led.append now expr.speakerId "evaluate" (some expr.conditionLabel)
                 (some true) expr.action (some Status.broken) none none (some msg),
               some Status.broken)
          | Except.ok b => evaluateFinish now expr led b
      | none => evaluateFinish now expr led true

/-- Python `expr.loop_max or 10000`: both None and 0 fall back to the
default safety bound. -/
def effectiveLoopMax : Option Nat → Nat
  | none => 10000
  | some 0 => 10000
  | some (n + 1) => n + 1

/-- The `while count < max_iter` loop of Evaluator.evaluate_loop, with
`fuel = max_iter - count` remaining iterations. -/
def Evaluator.evaluateLoopGo (now maxIter : Nat) (reg : SpeakerRegistry) :
    Nat → Expression → Ledger → Expression × Ledger × Status × Nat
  | 0, expr, led =>
      (expr,
       led.append now expr.speakerId "loop_bound_exceeded" none none expr.action
         (some Status.broken) none (some ("iterations=" ++ toString maxIter))
         (some ("max_iterations_" ++ toString maxIter ++ "_exceeded")),
       Status.broken, maxIter)
  | fuel + 1, expr, led =>
      let count := maxIter - (fuel + 1)
      let condHolds :=
        match expr.loopCondition with
        | some c => c count
        | none => true
      if condHolds = false then
        (expr,
         led.append now expr.speakerId "loop_end" none none expr.action
           (some Status.inactive) none (some ("iterations=" ++ toString count)) none,
         Status.inactive, count)
      else
        match Evaluator.evaluate now count reg led expr with
        | (expr', led', st) =>
            if st = some Status.broken then (expr', led', Status.broken, count + 1)
            else if st = some Status.inactive then (expr', led', Status.inactive, count + 1)
            else Evaluator.evaluateLoopGo now maxIter reg fuel expr' led'

/-- Evaluator.evaluate_loop: returns the mutated expression, the ledger,
the final status and the iteration count. -/
def Evaluator.evaluate_loop (now : Nat) (reg : SpeakerRegistry) (expr : Expression)
    (led : Ledger) : Expression × Ledger × Status × Nat :=
  let maxIter := effectiveLoopMax expr.loopMax
  Evaluator.evaluateLoopGo now maxIter reg maxIter expr led

/-! ### Part VIII of mary.py — Mary, the kernel façade -/

structure KState where
  registry : SpeakerRegistry
  memory : Memory
  ledger : Ledger
  bus : RequestBus
  expressions : List (Nat × Expression)
  nextExprId : Nat

/-- Mary.boot at construction time (clock 0): root speaker, root partition,
one boot entry. -/
def Mary.init : KState :=
  let (reg, root) := SpeakerRegistry.init.create "root" 0
  let led := Ledger.init.append 0 root.id "boot" none none "mary_initialized"
    (some Status.active) none none none
  { registry := reg, memory := Memory.init.create_partition root.id,
    ledger := led, bus := RequestBus.init, expressions := [], nextExprId := 0 }

def Mary.create_speaker (st : KState) (now caller : Nat) (name : String) :
    KState × Option Nat :=
  if st.registry.authenticate caller = false then
    let led := st.ledger.append now caller "create_speaker" none none
      ("create:" ++ name) (some Status.broken) none none
      (some "caller_not_authenticated")
    ({ st with ledger := led }, none)
  else
    let (reg', sp) := st.registry.create name now
    let led := st.ledger.append now caller "create_speaker" none none
      ("create:" ++ name) (some Status.active) none
      (some ("new_speaker_id=" ++ toString sp.id)) none
    ({ st with registry := reg', memory := st.memory.create_partition sp.id,
               ledger := led },
     some sp.id)

def Mary.suspend_speaker (st : KState) (now caller target : Nat) : KState × Bool :=
  if caller ≠ 0 then
    let led := st.ledger.append now caller "suspend_speaker" none none
      ("suspend:" ++ toString target) (some Status.broken) none none
      (some "not_root")
    ({ st with ledger := led }, false)
  else
    let (reg', success) := st.registry.suspend target
    let led := st.ledger.append now caller "suspend_speaker" none none
      ("suspend:" ++ toString target)
      (some (if success then Status.active else Status.broken)) none none
      (if success then none else some "speaker_not_found")
    ({ st with registry := reg', ledger := led }, success)

def Mary.read (st : KState) (now caller owner : Nat) (name : String) :
    KState × Option Value :=
  if st.registry.authenticate caller = false then
    let led := st.ledger.append now caller "read" none none
      ("read:" ++ toString owner ++ "." ++ name) (some Status.broken) none none
      (some "caller_not_authenticated")
    ({ st with ledger := led }, none)
  else
    let value := st.memory.read owner name
    let led := st.ledger.append now caller "read" none none
      ("read:" ++ toString owner ++ "." ++ name) (some Status.active) none
      (some ("value=" ++ renderOpt value)) none
    ({ st with ledger := led }, value)

def Mary.write (st : KState) (now caller : Nat) (name : String) (v : Value) :
    KState × Bool :=
  if st.registry.authenticate caller = false then
    let led := st.ledger.append now caller "write" none none
      ("write:" ++ name) (some Status.broken) none none
      (some "caller_not_authenticated")
    ({ st with ledger := led }, false)
  else
    match st.memory.write caller name v with
    | (mem', success, oldValue) =>
        let led := st.ledger.append now caller "write" none none
          ("write:" ++ name)
          (some (if success then Status.active else Status.broken))
          (some ("old_value=" ++ renderOpt oldValue))
          (some ("new_value=" ++ renderOpt (some v)))
          (if success then none else some "write_failed")
        ({ st with memory := mem', ledger := led }, success)

def Mary.write_to (st : KState) (now caller target : Nat) (name : String) (v : Value) :
    KState × Bool :=
  if caller ≠ target then
    let led := st.ledger.append now caller "write_violation" none none
      ("write:" ++ toString target ++ "." ++ name) (some Status.broken) none none
      (some "write_ownership_violation")
    ({ st with ledger := led }, false)
  else Mary.write st now caller name v

/-- The Expression dataclass constructor as submit and submit_loop call it:
version defaults to current, status to none. -/
def mkExpression (expressionId speakerId : Nat)
    (condition : Option (Nat → Except String Bool)) (conditionLabel action : String)
    (actionFn : Option (Nat → Except String Bool)) (createdAt : Nat)
    (scopeUntil : Option Nat) (isRefusal : Bool)
    (loopCondition : Option (Nat → Bool)) (loopMax : Option Nat) : Expression :=
  { expressionId := expressionId, speakerId := speakerId, condition := condition,
    conditionLabel := conditionLabel, action := action, actionFn := actionFn,
    createdAt := createdAt, version := Version.current, status := none,
    scopeUntil := scopeUntil, isRefusal := isRefusal,
    loopCondition := loopCondition, loopMax := loopMax }

/-- The supersession scan inside Mary.submit: every current expression with
the same (speaker, condition_label, action) triple is marked superseded, one
supersede ledger entry per match. -/
def supersedeScan (now sid : Nat) (condLabel action : String) (newId : Nat) :
    List (Nat × Expression) → Ledger → List (Nat × Expression) × Ledger
  | [], led => ([], led)
  | (eid, ex) :: rest, led =>
      if ex.speakerId = sid ∧ ex.action = action ∧ ex.conditionLabel = condLabel ∧
          ex.version = Version.current then
        let led' := led.append now sid "supersede" none none
          ("supersede:expr_" ++ toString ex.expressionId) (some Status.active)
          (some ("old_expr_id=" ++ toString ex.expressionId))
          (some ("new_expr_id=" ++ toString newId)) none
        match supersedeScan now sid condLabel action newId rest led' with
        | (rest', led'') => ((eid, { ex with version := Version.superseded }) :: rest', led'')
      else
        match supersedeScan now sid condLabel action newId rest led with
        | (rest', led') => ((eid, ex) :: rest', led')

def Mary.submit (st : KState) (now sid : Nat)
    (condition : Option (Nat → Except String Bool)) (condLabel action : String)
    (actionFn : Option (Nat → Except String Bool)) (isRefusal : Bool)
    (scopeUntil : Option Nat) : KState × Option Nat :=
  if st.registry.authenticate sid = false then
    let led := st.ledger.append now sid "submit" none none action
      (some Status.broken) none none (some "speaker_not_authenticated")
    ({ st with ledger := led }, none)
  else
    let expr : Expression :=
      mkExpression st.nextExprId sid condition condLabel action actionFn now
        scopeUntil isRefusal none none
    match supersedeScan now sid condLabel action expr.expressionId st.expressions st.ledger with
    | (exprs', led') =>
        let exprs'' := exprs' ++ [(expr.expressionId, expr)]
        match Evaluator.evaluate now 0 st.registry led' expr with
        | (expr2, led'', _) =>
            ({ st with expressions := alistSet exprs'' expr.expressionId expr2,
                       nextExprId := st.nextExprId + 1, ledger := led'' },
             some expr.expressionId)

def Mary.submit_loop (st : KState) (now sid : Nat)
    (condition : Option (Nat → Except String Bool)) (condLabel action : String)
    (actionFn : Option (Nat → Except String Bool))
    (loopCondition : Option (Nat → Bool)) (loopMax : Option Nat) :
    KState × Option (Nat × Nat) :=
  if st.registry.authenticate sid = false then (st, none)
  else
    let expr : Expression :=
      mkExpression st.nextExprId sid condition condLabel action actionFn now
        none false loopCondition loopMax
    let exprs' := st.expressions ++ [(expr.expressionId, expr)]
    match Evaluator.evaluate_loop now st.registry expr st.ledger with
    | (expr2, led', _, count) =>
        ({ st with expressions := alistSet exprs' expr.expressionId expr2,
                   nextExprId := st.nextExprId + 1, ledger := led' },
         some (expr.expressionId, count))

def Mary.request (st : KState) (now caller target : Nat) (action : String)
    (data : Option Value) (timeout : Option Nat) : KState × Option Nat :=
  if st.registry.authenticate caller = false then
    let led := st.ledger.append now caller "request" none none
      ("request:" ++ toString target ++ ":" ++ action) (some Status.broken)
      none none (some "caller_not_authenticated")
    ({ st with ledger := led }, none)
  else if st.registry.authenticate target = false then
    let led := st.ledger.append now caller "request" none none
      ("request:" ++ toString target ++ ":" ++ action) (some Status.broken)
      none none (some "target_not_found")
    ({ st with ledger := led }, none)
  else
    let expiresAt : Option Nat :=
      match timeout with
      | none => none
      | some 0 => none
      | some t => some (now + t)
    match st.bus.create_request caller target action data now expiresAt with
    | (bus', req) =>
        let led := st.ledger.append now caller "request" none none
          ("request:" ++ toString target ++ ":" ++ action) (some Status.active)
          none (some ("request_id=" ++ toString req.requestId)) none
        ({ st with bus := bus', ledger := led }, some req.requestId)

def Mary.respond (st : KState) (now caller rid : Nat) (accept : Bool)
    (responseData : Option Value) : KState × Bool :=
  match st.bus.get_request rid with
  | none =>
      let led := st.ledger.append now caller "respond" none none
        ("respond:" ++ toString rid) (some Status.broken) none none
        (some "request_not_found")
      ({ st with ledger := led }, false)
  | some req =>
      if req.toSpeaker ≠ caller then
        let led := st.ledger.append now caller "respond" none none
          ("respond:" ++ toString rid) (some Status.broken) none none
          (some "not_target_speaker")
        ({ st with ledger := led }, false)
      else
        match st.bus.respond rid caller accept responseData with
        | (bus', result) =>
            let led := st.ledger.append now caller "respond" none none
              ("respond:" ++ toString rid ++ ":" ++
                (if accept then "accept" else "refuse"))
              (some Status.active) none
              (some ("request_id=" ++ toString rid)) none
            ({ st with bus := bus', ledger := led }, result.isSome)

def Mary.ledger_verify (st : KState) : Bool := st.ledger.verify_integrity

/-! ### helena.py — the world layer (the parts the worlds claims need) -/

structure WorldPermissions where
  read : Bool
  write : Bool
  submit : Bool
  request : Bool
  invite : Bool
  configure : Bool
deriving DecidableEq

def WorldPermissions.default : WorldPermissions :=
  { read := true, write := true, submit := true, request := true,
    invite := false, configure := false }

structure WorldMember where
  speakerId : Nat
  permissions : WorldPermissions
  joinedAt : Nat
  role : String
deriving DecidableEq

structure World where
  worldId : String
  name : String
  creatorId : Nat
  createdAt : Nat
  status : String
  members : List (Nat × WorldMember)
  namespacePrefix : String
deriving DecidableEq

def World.is_member (w : World) (sid : Nat) : Bool :=
  w.members.any (fun p => p.1 == sid)

def World.get_permissions (w : World) (sid : Nat) : Option WorldPermissions :=
  (w.members.find? (fun p => p.1 == sid)).map (fun p => p.2.permissions)

/-- World.can: Python getattr(perms, permission, False) on the six fields. -/
def World.can (w : World) (sid : Nat) (permission : String) : Bool :=
  match w.get_permissions sid with
  | none => false
  | some perms =>
      if permission = "read" then perms.read
      else if permission = "write" then perms.write
      else if permission = "submit" then perms.submit
      else if permission = "request" then perms.request
      else if permission = "invite" then perms.invite
      else if permission = "configure" then perms.configure
      else false

structure HState where
  mary : KState
  helenaId : Nat
  worlds : List (String × World)
  nextWorldId : Nat
  blocks : List (Nat × List Nat)

/-- Helena.__init__ at clock 0: boot Mary, create the helena speaker,
write the two system variables. -/
def Helena.init : HState :=
  let mary0 := Mary.init
  match Mary.create_speaker mary0 0 0 "helena" with
  | (mary1, hid?) =>
      let hid := hid?.getD 0
      let (mary2, _) := Mary.write mary1 0 hid "system.status" (Value.vstr "booted")
      let (mary3, _) := Mary.write mary2 0 hid "system.boot_time" (Value.vint 0)
      { mary := mary3, helenaId := hid, worlds := [], nextWorldId := 0, blocks := [] }

def Helena.create_world (h : HState) (now creator : Nat) (name : String) :
    HState × Option String :=
  if h.mary.registry.authenticate creator = false then (h, none)
  else
    let wid := "world_" ++ toString h.nextWorldId
    let creatorPerms : WorldPermissions :=
      { read := true, write := true, submit := true, request := true,
        invite := true, configure := true }
    let world : World :=
      { worldId := wid, name := name, creatorId := creator, createdAt := now,
        status := "open",
        members := [(creator, { speakerId := creator, permissions := creatorPerms,
                                joinedAt := now, role := "creator" })],
        namespacePrefix := wid }
    let (mary1, _) := Mary.write h.mary now h.helenaId
      ("worlds." ++ wid ++ ".name") (Value.vstr name)
    let (mary2, _) := Mary.write mary1 now h.helenaId
      ("worlds." ++ wid ++ ".creator") (Value.vint creator)
    let (mary3, _) := Mary.write mary2 now h.helenaId
      ("worlds." ++ wid ++ ".status") (Value.vstr "open")
    let (mary4, _) := Mary.submit mary3 now creator none "⊤"
      ("create_world:" ++ wid ++ ":" ++ name)
      (some (fun _ => Except.ok true)) false none
    ({ h with mary := mary4, worlds := alistSet h.worlds wid world,
              nextWorldId := h.nextWorldId + 1 },
     some wid)

def Helena.join_world (h : HState) (now sid : Nat) (wid : String)
    (permissions : Option WorldPermissions) : HState × Bool :=
  match (h.worlds.find? (fun p => p.1 == wid)).map (fun p => p.2) with
  | none => (h, false)
  | some world =>
      if world.status ≠ "open" then (h, false)
      else if h.mary.registry.authenticate sid = false then (h, false)
      else
        let perms := permissions.getD WorldPermissions.default
        let member : WorldMember :=
          { speakerId := sid, permissions := perms, joinedAt := now, role := "member" }
        let world' := { world with members := alistSet world.members sid member }
        let (mary1, _) := Mary.submit h.mary now sid none
          ("invited_to:" ++ wid) ("join_world:" ++ wid)
          (some (fun _ => Except.ok true)) false none
        ({ h with mary := mary1, worlds := alistSet h.worlds wid world' }, true)

def Helena.invite_to_world (h : HState) (now inviter target : Nat) (wid : String)
    (permissions : Option WorldPermissions) : HState × Bool :=
  match (h.worlds.find? (fun p => p.1 == wid)).map (fun p => p.2) with
  | none => (h, false)
  | some world =>
      if world.can inviter "invite" = false then (h, false)
      else if h.mary.registry.authenticate target = false then (h, false)
      else
        let (mary1, _) := Mary.submit h.mary now inviter none "⊤"
          ("invite:" ++ toString target ++ ":to:" ++ wid)
          (some (fun _ => Except.ok true)) false none
        Helena.join_world { h with mary := mary1 } now target wid permissions

def Helena.leave_world (h : HState) (now sid : Nat) (wid : String) : HState × Bool :=
  match (h.worlds.find? (fun p => p.1 == wid)).map (fun p => p.2) with
  | none => (h, false)
  | some world =>
      if world.is_member sid = false then (h, false)
      else
        let world' := { world with members := world.members.eraseP (fun p => p.1 == sid) }
        let (mary1, _) := Mary.submit h.mary now sid none "⊤"
          ("leave_world:" ++ wid) (some (fun _ => Except.ok true)) false none
        ({ h with mary := mary1, worlds := alistSet h.worlds wid world' }, true)

def Helena.archive_world (h : HState) (now caller : Nat) (wid : String) : HState × Bool :=
  match (h.worlds.find? (fun p => p.1 == wid)).map (fun p => p.2) with
  | none => (h, false)
  | some world =>
      if world.creatorId ≠ caller then (h, false)
      else
        let world' := { world with status := "archived" }
        let (mary1, _) := Mary.write h.mary now h.helenaId
          ("worlds." ++ wid ++ ".status") (Value.vstr "archived")
        let (mary2, _) := Mary.submit mary1 now caller none "⊤"
          ("archive_world:" ++ wid) (some (fun _ => Except.ok true)) false none
        ({ h with mary := mary2, worlds := alistSet h.worlds wid world' }, true)

def Helena.world_write (h : HState) (now sid : Nat) (wid name : String) (v : Value) :
    HState × Bool :=
  match (h.worlds.find? (fun p => p.1 == wid)).map (fun p => p.2) with
  | none => (h, false)
  | some world =>
      if world.can sid "write" = false then (h, false)
      else if world.status = "archived" then (h, false)
      else
        let fullVar := wid ++ "." ++ toString sid ++ "." ++ name
        match Mary.write h.mary now sid fullVar v with
        | (mary1, success) => ({ h with mary := mary1 }, success)

def Helena.world_read (h : HState) (now caller : Nat) (wid : String) (owner : Nat)
    (name : String) : HState × Option Value :=
  match (h.worlds.find? (fun p => p.1 == wid)).map (fun p => p.2) with
  | none => (h, none)
  | some world =>
      if world.can caller "read" = false then (h, none)
      else
        let fullVar := wid ++ "." ++ toString owner ++ "." ++ name
        match Mary.read h.mary now caller owner fullVar with
        | (mary1, v) => ({ h with mary := mary1 }, v)

def Helena.world_request (h : HState) (now caller target : Nat) (wid action : String)
    (data : Option Value) : HState × Option Nat :=
  match (h.worlds.find? (fun p => p.1 == wid)).map (fun p => p.2) with
  | none => (h, none)
  | some world =>
      if world.can caller "request" = false then (h, none)
      else if world.is_member target = false then (h, none)
      else
        match Mary.request h.mary now caller target (wid ++ ":" ++ action) data none with
        | (mary1, rid?) => ({ h with mary := mary1 }, rid?)

/-! ### Definitions supporting the claims: predicates, reachability
relations and concrete scenario states -/

/-- A one-entry ledger used to exercise the integrity check. -/
def C2sample : Ledger :=
  Ledger.init.append 0 0 "boot" none none "mary_initialized" (some Status.active)
    none none none

/-- An expression whose condition callback raises on every invocation. -/
def raisingCondExpr : Expression :=
  { expressionId := 0, speakerId := 0,
    condition := some (fun _ => Except.error "boom"),
    conditionLabel := "c", action := "a", actionFn := none, createdAt := 0,
    version := Version.current, status := none, scopeUntil := none,
    isRefusal := false, loopCondition := none, loopMax := none }

/-- State with one resolved request: root creates speakers 1 and 2, speaker 1
requests review from speaker 2, speaker 2 refuses. -/
def C10state : KState :=
  let s1 := (Mary.create_speaker Mary.init 1 0 "A").1
  let s2 := (Mary.create_speaker s1 2 0 "B").1
  let s3 := (Mary.request s2 3 1 2 "review" none none).1
  (Mary.respond s3 4 2 0 false none).1

/-- The resolved request sitting in C10state's bus. -/
def C10req : Request :=
  { requestId := 0, fromSpeaker := 1, toSpeaker := 2, action := "review",
    data := none, status := RequestStatus.refused, createdAt := 3,
    expiresAt := none, responseData := none }

/-- Helena state with an archived world: speakers alice (2) and bob (3),
world_0 created by alice, bob invited, then archived by alice. -/
def C9state : HState :=
  let h0 := Helena.init
  let h1 : HState := { h0 with mary := (Mary.create_speaker h0.mary 1 0 "alice").1 }
  let h2 : HState := { h1 with mary := (Mary.create_speaker h1.mary 2 0 "bob").1 }
  let h3 := (Helena.create_world h2 3 2 "w").1
  let h4 := (Helena.invite_to_world h3 4 2 3 "world_0" none).1
  (Helena.archive_world h4 5 2 "world_0").1

/-- The archived world record inside C9state. -/
def C9world : World :=
  { worldId := "world_0", name := "w", creatorId := 2, createdAt := 3,
    status := "archived",
    members :=
      [(2, { speakerId := 2,
             permissions := { read := true, write := true, submit := true,
                              request := true, invite := true, configure := true },
             joinedAt := 3, role := "creator" }),
       (3, { speakerId := 3, permissions := WorldPermissions.default,
             joinedAt := 4, role := "member" })],
    namespacePrefix := "world_0" }

/-- Kernel state in which speaker 2 holds a pending request and has just
been suspended by root. -/
def C4state : KState :=
  let s1 := (Mary.create_speaker Mary.init 1 0 "A").1
  let s2 := (Mary.create_speaker s1 2 0 "B").1
  let s3 := (Mary.request s2 3 1 2 "review" none none).1
  (Mary.suspend_speaker s3 4 0 2).1

/-- Kernel state in which root has suspended itself. -/
def C4rootSuspended : KState :=
  (Mary.suspend_speaker (Mary.create_speaker Mary.init 1 0 "A").1 2 0 0).1

/-- Ledgers producible by the Ledger class: start empty, then only append. -/
inductive Ledger.built : Ledger → Prop where
  | init : Ledger.built Ledger.init
  | append : ∀ (l : Ledger) (now sid : Nat) (operation : String)
      (condition : Option String) (conditionResult : Option Bool) (action : String)
      (status : Option Status) (stateBefore stateAfter : Option String)
      (breakReason : Option String), Ledger.built l →
      Ledger.built (l.append now sid operation condition conditionResult action
        status stateBefore stateAfter breakReason)

/-- The hash-input string the spec publishes as the external contract. -/
def hashInput (e : LedgerEntry) : String :=
  toString e.entryId ++ ":" ++ toString e.speakerId ++ ":" ++ e.operation ++ ":" ++
    e.action ++ ":" ++ toString e.timestamp ++ ":" ++ e.prevHash

/-- Chain predicate: ids count up from n, links start at hsh, every stored
hash is the truncated digest of the hash input. -/
def chainFrom : Nat → String → List LedgerEntry → Prop
  | _, _, [] => True
  | n, hsh, e :: rest =>
      e.entryId = n ∧ e.prevHash = hsh ∧ e.entryHash = sha256Hex16 (hashInput e) ∧
      chainFrom (n + 1) e.entryHash rest

/-- Running last hash over a list of entries. -/
def lastHashOf : String → List LedgerEntry → String
  | hsh, [] => hsh
  | _, e :: rest => lastHashOf e.entryHash rest

/-- A loop whose bound is the literal 0 and whose loop condition always
holds; condition and action are absent, exactly as in the kernel test. -/
def C6loopExpr : Expression :=
  { expressionId := 0, speakerId := 0, condition := none, conditionLabel := "L",
    action := "act", actionFn := none, createdAt := 0, version := Version.current,
    status := none, scopeUntil := none, isRefusal := false,
    loopCondition := some (fun _ => true), loopMax := some 0 }

/-- Number of current expressions in the (speaker, condition_label, action)
equivalence class. -/
def countCurrentIn (exprs : List (Nat × Expression)) (sid : Nat) (cl act : String) : Nat :=
  (exprs.filter (fun p => p.2.version == Version.current && p.2.speakerId == sid &&
    p.2.conditionLabel == cl && p.2.action == act)).length

/-- State where the expression superseding expression 0 has itself expired
through the evaluator's scope gate. -/
def C7expire : KState :=
  let s0 := (Mary.create_speaker Mary.init 1 0 "A").1
  let s1 := (Mary.submit s0 10 1 none "L" "act" none false none).1
  (Mary.submit s1 11 1 none "L" "act" none false (some 5)).1

/-- State where a submit_loop added a second current expression to a class
that already contains a superseded one. -/
def C7loopSt : KState :=
  let s0 := (Mary.create_speaker Mary.init 1 0 "A").1
  let s1 := (Mary.submit s0 10 1 none "L" "act" none false none).1
  let s2 := (Mary.submit s1 11 1 none "L" "act" none false none).1
  (Mary.submit_loop s2 12 1 none "L" "act" none (some (fun _ => false)) (some 3)).1

/-- The marking function the supersession scan applies to every stored
expression. -/
def supersedeMark (sid : Nat) (cl act : String) (p : Nat × Expression) :
    Nat × Expression :=
  if p.2.speakerId = sid ∧ p.2.action = act ∧ p.2.conditionLabel = cl ∧
      p.2.version = Version.current
  then (p.1, { p.2 with version := Version.superseded }) else p

/-- Kernel states reachable through the façade when no submission carries a
scope bound and submit_loop is not used. -/
inductive ReachNS : KState → Prop where
  | init : ReachNS Mary.init
  | create_speaker (st : KState) (now caller : Nat) (name : String) :
      ReachNS st → ReachNS (Mary.create_speaker st now caller name).1
  | suspend_speaker (st : KState) (now caller target : Nat) :
      ReachNS st → ReachNS (Mary.suspend_speaker st now caller target).1
  | read (st : KState) (now caller owner : Nat) (name : String) :
      ReachNS st → ReachNS (Mary.read st now caller owner name).1
  | write (st : KState) (now caller : Nat) (name : String) (v : Value) :
      ReachNS st → ReachNS (Mary.write st now caller name v).1
  | write_to (st : KState) (now caller target : Nat) (name : String) (v : Value) :
      ReachNS st → ReachNS (Mary.write_to st now caller target name v).1
  | request (st : KState) (now caller target : Nat) (action : String)
      (data : Option Value) (timeout : Option Nat) :
      ReachNS st → ReachNS (Mary.request st now caller target action data timeout).1
  | respond (st : KState) (now caller rid : Nat) (accept : Bool) (rdata : Option Value) :
      ReachNS st → ReachNS (Mary.respond st now caller rid accept rdata).1
  | submit (st : KState) (now sid : Nat) (condition : Option (Nat → Except String Bool))
      (cl act : String) (actionFn : Option (Nat → Except String Bool)) (ir : Bool) :
      ReachNS st → ReachNS (Mary.submit st now sid condition cl act actionFn ir none).1

/-- The auxiliary invariant: no class ever holds two current expressions,
every superseded expression has exactly one current classmate, and stored
keys stay below the id counter. -/
def SupInvAux (st : KState) : Prop :=
  (∀ (s : Nat) (c a : String), countCurrentIn st.expressions s c a ≤ 1) ∧
  (∀ p ∈ st.expressions, p.2.version = Version.superseded →
    countCurrentIn st.expressions p.2.speakerId p.2.conditionLabel p.2.action = 1) ∧
  (∀ p ∈ st.expressions, p.1 < st.nextExprId)

/-- The superseded first expression stored in C7witnessState. -/
def C7supersededExpr : Expression :=
  { expressionId := 0, speakerId := 1, condition := none, conditionLabel := "L",
    action := "act", actionFn := none, createdAt := 10,
    version := Version.superseded, status := some Status.active,
    scopeUntil := none, isRefusal := false, loopCondition := none, loopMax := none }

/-- State reached by two plain submissions in the same class, so one real
supersession has happened. -/
def C7witnessState : KState :=
  (Mary.submit (Mary.submit (Mary.create_speaker Mary.init 1 0 "A").1
    10 1 none "L" "act" none false none).1 11 1 none "L" "act" none false none).1

/-- The broken not_root entry logged when speaker 5 calls suspend_speaker on
the freshly booted kernel at time 1. -/
def C8witnessEntry : LedgerEntry :=
  { entryId := 1, speakerId := 5, operation := "suspend_speaker", condition := none,
    conditionResult := none, action := "suspend:0", status := some Status.broken,
    stateBefore := none, stateAfter := none, timestamp := 1,
    prevHash := "dd51265380daa668", entryHash := "d5995b91bca19995",
    breakReason := some "not_root" }

/-- The closed break_reason set the spec publishes (the N in the loop-bound
reason is the numeric limit). -/
def kernelBreakReasons : List String :=
  ["speaker_not_found_or_suspended", "caller_not_authenticated", "target_not_found",
   "request_not_found", "not_target_speaker", "not_root", "write_ownership_violation",
   "write_failed", "action_not_fulfilled"]

def inSpecBreakSet (s : String) : Prop :=
  s ∈ kernelBreakReasons ∨
    ∃ n : Nat, s = "max_iterations_" ++ toString n ++ "_exceeded"

/-- The set the kernel actually draws fixed reasons from: the spec set plus
submit's speaker_not_authenticated and suspend_speaker's speaker_not_found. -/
def extendedBreakReasons : List String :=
  kernelBreakReasons ++ ["speaker_not_authenticated", "speaker_not_found"]

/-- A broken entry is accounted for: a fixed reason from the extended set,
a loop-bound reason, or an action-exception record (operation evaluate with
condition_result true, whose break_reason is the raised message). -/
def BreakReasonOk (e : LedgerEntry) : Prop :=
  e.status = some Status.broken →
    (∃ s, e.breakReason = some s ∧ s ∈ extendedBreakReasons) ∨
    (∃ n : Nat, e.breakReason = some ("max_iterations_" ++ toString n ++ "_exceeded")) ∨
    (e.operation = "evaluate" ∧ e.conditionResult = some true)

/-- Kernel states reachable through the full façade. -/
inductive Reach : KState → Prop where
  | init : Reach Mary.init
  | create_speaker (st : KState) (now caller : Nat) (name : String) :
      Reach st → Reach (Mary.create_speaker st now caller name).1
  | suspend_speaker (st : KState) (now caller target : Nat) :
      Reach st → Reach (Mary.suspend_speaker st now caller target).1
  | read (st : KState) (now caller owner : Nat) (name : String) :
      Reach st → Reach (Mary.read st now caller owner name).1
  | write (st : KState) (now caller : Nat) (name : String) (v : Value) :
      Reach st → Reach (Mary.write st now caller name v).1
  | write_to (st : KState) (now caller target : Nat) (name : String) (v : Value) :
      Reach st → Reach (Mary.write_to st now caller target name v).1
  | request (st : KState) (now caller target : Nat) (action : String)
      (data : Option Value) (timeout : Option Nat) :
      Reach st → Reach (Mary.request st now caller target action data timeout).1
  | respond (st : KState) (now caller rid : Nat) (accept : Bool) (rdata : Option Value) :
      Reach st → Reach (Mary.respond st now caller rid accept rdata).1
  | submit (st : KState) (now sid : Nat) (condition : Option (Nat → Except String Bool))
      (cl act : String) (actionFn : Option (Nat → Except String Bool)) (ir : Bool)
      (su : Option Nat) :
      Reach st → Reach (Mary.submit st now sid condition cl act actionFn ir su).1
  | submit_loop (st : KState) (now sid : Nat)
      (condition : Option (Nat → Except String Bool)) (cl act : String)
      (actionFn : Option (Nat → Except String Bool)) (lc : Option (Nat → Bool))
      (lm : Option Nat) :
      Reach st → Reach (Mary.submit_loop st now sid condition cl act actionFn lc lm).1

/-! ### Claim C1 -/

set_option maxRecDepth 4000

/-- C1: write_to with caller ≠ target returns false, appends exactly one
write_violation entry with status broken and break_reason
write_ownership_violation, and leaves the target's partition (and reads of
it) unchanged. -/
theorem write_to_ownership_violation (st : KState) (now c t : Nat) (name : String)
    (v : Value) (h : c ≠ t) :
    (Mary.write_to st now c t name v).2 = false ∧
    (Mary.write_to st now c t name v).1.memory = st.memory ∧
    Memory.read (Mary.write_to st now c t name v).1.memory t name =
      Memory.read st.memory t name ∧
    ∃ e : LedgerEntry,
      (Mary.write_to st now c t name v).1.ledger.entries = st.ledger.entries ++ [e] ∧
      e.operation = "write_violation" ∧ e.status = some Status.broken ∧
      e.breakReason = some "write_ownership_violation" := by
  unfold Mary.write_to
  rw [if_pos h]
  exact ⟨rfl, rfl, rfl, _, rfl, rfl, rfl, rfl⟩

/-- C1 witness: the theorem at caller 1, target 2 on the freshly booted kernel. -/
theorem write_to_ownership_violation_witness :
    (1 : Nat) ≠ 2 ∧
    ((Mary.write_to Mary.init 5 1 2 "x" (Value.vint 1)).2 = false ∧
     (Mary.write_to Mary.init 5 1 2 "x" (Value.vint 1)).1.memory = Mary.init.memory ∧
     Memory.read (Mary.write_to Mary.init 5 1 2 "x" (Value.vint 1)).1.memory 2 "x" =
       Memory.read Mary.init.memory 2 "x" ∧
     ∃ e : LedgerEntry,
       (Mary.write_to Mary.init 5 1 2 "x" (Value.vint 1)).1.ledger.entries =
         Mary.init.ledger.entries ++ [e] ∧
       e.operation = "write_violation" ∧ e.status = some Status.broken ∧
       e.breakReason = some "write_ownership_violation") :=
  ⟨by decide, write_to_ownership_violation Mary.init 5 1 2 "x" (Value.vint 1) (by decide)⟩

/-! ### Claim C2 -/

/-- Tampering with a field outside the hash input and outside the
chain-linking fields does not change what verifyFrom sees. -/
theorem verifyFrom_tamperAt (f : LedgerEntry → LedgerEntry)
    (hf : ∀ e, (f e).prevHash = e.prevHash ∧ (f e).entryHash = e.entryHash ∧
      (f e).compute_hash = e.compute_hash) :
    ∀ (es : List LedgerEntry) (i : Nat) (expected : String),
      Ledger.verifyFrom expected (tamperAt f es i) = Ledger.verifyFrom expected es := by
  intro es
  induction es with
  | nil => intro i expected; cases i <;> rfl
  | cons e rest ih =>
      intro i expected
      cases i with
      | zero =>
          simp only [tamperAt, Ledger.verifyFrom, (hf e).1, (hf e).2.1, (hf e).2.2]
      | succ j =>
          simp only [tamperAt, Ledger.verifyFrom, ih]

/-- A chain that verifies has every stored hash equal to its recomputation. -/
theorem verifyFrom_hash_consistent (es : List LedgerEntry) :
    ∀ expected, Ledger.verifyFrom expected es = true →
      ∀ e ∈ es, e.entryHash = e.compute_hash := by
  induction es with
  | nil => intro expected _ e he; cases he
  | cons a rest ih =>
      intro expected hv e he
      rw [Ledger.verifyFrom] at hv
      by_cases h1 : a.prevHash ≠ expected
      · rw [if_pos h1] at hv; cases hv
      · rw [if_neg h1] at hv
        by_cases h2 : a.entryHash ≠ a.compute_hash
        · rw [if_pos h2] at hv; cases hv
        · rw [if_neg h2] at hv
          rcases List.mem_cons.mp he with rfl | hmem
          · exact not_ne_iff.mp h2
          · exact ih a.entryHash hv e hmem

/-- Any entry whose stored hash disagrees with its recomputation falsifies
the whole chain. -/
theorem verifyFrom_false_of_mismatch (es : List LedgerEntry) (e : LedgerEntry)
    (he : e ∈ es) (hne : e.entryHash ≠ e.compute_hash) (expected : String) :
    Ledger.verifyFrom expected es = false := by
  cases hv : Ledger.verifyFrom expected es with
  | false => rfl
  | true => exact absurd (verifyFrom_hash_consistent es expected hv e he) hne

/-- The tampered copy of the i-th entry is an entry of the tampered list. -/
theorem tamperAt_mem (f : LedgerEntry → LedgerEntry) (es : List LedgerEntry) :
    ∀ (i : Nat) (hi : i < es.length), f (es.get ⟨i, hi⟩) ∈ tamperAt f es i := by
  induction es with
  | nil => intro i hi; simp at hi
  | cons a rest ih =>
      intro i hi
      cases i with
      | zero => exact List.mem_cons_self _ _
      | succ j =>
          exact List.mem_cons_of_mem a (ih j (Nat.lt_of_succ_lt_succ hi))

/-- C2 counterexample: the sample ledger verifies, flipping the status field
of its entry really changes the entry, yet the tampered ledger still
verifies — the status field is not covered by the entry hash. -/
theorem ledger_tamper_status_counterexample :
    C2sample.verify_integrity = true ∧
    (C2sample.tamper 0 (fun e => { e with status := some Status.broken })).entries ≠
      C2sample.entries ∧
    (C2sample.tamper 0 (fun e => { e with status := some Status.broken })).verify_integrity
      = true := by
  refine ⟨by decide, by decide, by decide⟩

/-- C2 amended: on a verifying ledger, tampering with status, condition,
condition_result, state_before, state_after or break_reason leaves
verification true (those fields are outside the hash input), while tampering
with a hashed field such as action or timestamp makes verification false
whenever the recomputed truncated digest differs from the stored hash. -/
theorem ledger_tamper_amended (l : Ledger) (i : Nat) (h : l.verify_integrity = true)
    (stv : Option Status) (cnd : Option String) (cr : Option Bool)
    (sb sa br : Option String) (a : String) (ts : Nat) (hi : i < l.entries.length)
    (ha : (l.entries.get ⟨i, hi⟩).entryHash ≠
      LedgerEntry.compute_hash { l.entries.get ⟨i, hi⟩ with action := a })
    (ht : (l.entries.get ⟨i, hi⟩).entryHash ≠
      LedgerEntry.compute_hash { l.entries.get ⟨i, hi⟩ with timestamp := ts }) :
    (l.tamper i (fun e => { e with status := stv })).verify_integrity = true ∧
    (l.tamper i (fun e => { e with condition := cnd })).verify_integrity = true ∧
    (l.tamper i (fun e => { e with conditionResult := cr })).verify_integrity = true ∧
    (l.tamper i (fun e => { e with stateBefore := sb })).verify_integrity = true ∧
    (l.tamper i (fun e => { e with stateAfter := sa })).verify_integrity = true ∧
    (l.tamper i (fun e => { e with breakReason := br })).verify_integrity = true ∧
    (l.tamper i (fun e => { e with action := a })).verify_integrity = false ∧
    (l.tamper i (fun e => { e with timestamp := ts })).verify_integrity = false := by
  rw [Ledger.verify_integrity] at h
  refine ⟨?_, ?_, ?_, ?_, ?_, ?_, ?_, ?_⟩
  · refine Eq.trans (verifyFrom_tamperAt _ ?_ l.entries i "genesis") h
    exact fun e => ⟨rfl, rfl, rfl⟩
  · refine Eq.trans (verifyFrom_tamperAt _ ?_ l.entries i "genesis") h
    exact fun e => ⟨rfl, rfl, rfl⟩
  · refine Eq.trans (verifyFrom_tamperAt _ ?_ l.entries i "genesis") h
    exact fun e => ⟨rfl, rfl, rfl⟩
  · refine Eq.trans (verifyFrom_tamperAt _ ?_ l.entries i "genesis") h
    exact fun e => ⟨rfl, rfl, rfl⟩
  · refine Eq.trans (verifyFrom_tamperAt _ ?_ l.entries i "genesis") h
    exact fun e => ⟨rfl, rfl, rfl⟩
  · refine Eq.trans (verifyFrom_tamperAt _ ?_ l.entries i "genesis") h
    exact fun e => ⟨rfl, rfl, rfl⟩
  · exact verifyFrom_false_of_mismatch _ _
      (tamperAt_mem (fun e => { e with action := a }) l.entries i hi) ha "genesis"
  · exact verifyFrom_false_of_mismatch _ _
      (tamperAt_mem (fun e => { e with timestamp := ts }) l.entries i hi) ht "genesis"

set_option maxHeartbeats 2000000

/-- C2 amended witness: the amended theorem applied to the one-entry sample
ledger at index 0, with concrete replacement action and timestamp. -/
theorem ledger_tamper_amended_witness :
    C2sample.verify_integrity = true ∧
    ((C2sample.tamper 0 (fun e => { e with breakReason := some "forged" })).verify_integrity
      = true ∧
     (C2sample.tamper 0 (fun e => { e with action := "evil" })).verify_integrity = false ∧
     (C2sample.tamper 0 (fun e => { e with timestamp := 1 })).verify_integrity = false) := by
  have h := ledger_tamper_amended C2sample 0 (by decide) (some Status.broken) none none
    none none (some "forged") "evil" 1 (by decide) (by decide) (by decide)
  exact ⟨by decide, h.2.2.2.2.2.1, h.2.2.2.2.2.2.1, h.2.2.2.2.2.2.2⟩

/-! ### Claim C5 -/

/-- C5 counterexample: an authenticated, current expression whose condition
raises evaluates to inactive, not broken. -/
theorem condition_exception_counterexample :
    (Evaluator.evaluate 1 0 Mary.init.registry Mary.init.ledger raisingCondExpr).2.2 =
      some Status.inactive ∧
    (Evaluator.evaluate 1 0 Mary.init.registry Mary.init.ledger raisingCondExpr).2.2 ≠
      some Status.broken := by
  refine ⟨by decide, by decide⟩

/-- C5 amended: when the condition callback of an authenticated, current,
in-scope expression raises, the failure counts as the condition returning
false: the evaluation result and the stored status are inactive. -/
theorem condition_exception_inactive (now k : Nat) (reg : SpeakerRegistry)
    (led : Ledger) (expr : Expression) (f : Nat → Except String Bool) (msg : String)
    (hauth : reg.authenticate expr.speakerId = true)
    (hver : expr.version = Version.current)
    (hscope : scopeExpired now expr.scopeUntil = false)
    (hcond : expr.condition = some f)
    (hf : f k = Except.error msg) :
    (Evaluator.evaluate now k reg led expr).2.2 = some Status.inactive ∧
    (Evaluator.evaluate now k reg led expr).1.status = some Status.inactive := by
  simp [Evaluator.evaluate, hauth, hver, hscope, hcond, hf]

/-- C5 amended witness: the amended theorem at the concrete raising
expression on the freshly booted kernel. -/
theorem condition_exception_inactive_witness :
    (Evaluator.evaluate 1 0 Mary.init.registry Mary.init.ledger raisingCondExpr).2.2 =
      some Status.inactive ∧
    (Evaluator.evaluate 1 0 Mary.init.registry Mary.init.ledger raisingCondExpr).1.status =
      some Status.inactive :=
  condition_exception_inactive 1 0 Mary.init.registry Mary.init.ledger raisingCondExpr
    (fun _ => Except.error "boom") "boom" (by decide) rfl rfl rfl rfl

/-! ### Claim C10 -/

/-- RequestBus.respond returns nothing when the request found for this id is
no longer pending. -/
theorem bus_respond_none_of_resolved (bus : RequestBus) (rid c : Nat) (accept : Bool)
    (rdata : Option Value) (req : Request)
    (hreq : bus.get_request rid = some req)
    (hres : req.status ≠ RequestStatus.pending) :
    bus.respond rid c accept rdata = (bus, none) := by
  unfold RequestBus.respond
  cases hfind : bus.pending.find? (fun r => r.requestId == rid) with
  | none => rfl
  | some r =>
      have hr : r = req := by
        have hget : bus.get_request rid = some r := by
          unfold RequestBus.get_request
          rw [List.find?_append, hfind]
          rfl
        rw [hget] at hreq
        exact Option.some.inj hreq
      subst hr
      by_cases h1 : r.toSpeaker ≠ c
      · simp [h1]
      · simp [h1, hres]

/-- C10: responding as the correct target to a request that exists but is
already resolved returns false, yet appends one respond ledger entry with
status active and no break_reason. -/
theorem respond_resolved_active_entry (st : KState) (now c rid : Nat) (accept : Bool)
    (rdata : Option Value) (req : Request)
    (hreq : st.bus.get_request rid = some req)
    (htgt : req.toSpeaker = c)
    (hres : req.status ≠ RequestStatus.pending) :
    (Mary.respond st now c rid accept rdata).2 = false ∧
    ∃ e : LedgerEntry,
      (Mary.respond st now c rid accept rdata).1.ledger.entries =
        st.ledger.entries ++ [e] ∧
      e.operation = "respond" ∧ e.status = some Status.active ∧
      e.breakReason = none := by
  have hbus := bus_respond_none_of_resolved st.bus rid c accept rdata req hreq hres
  have hne : ¬ req.toSpeaker ≠ c := fun hc => hc htgt
  simp only [Mary.respond, hreq, if_neg hne, hbus]
  exact ⟨rfl, _, rfl, rfl, rfl, rfl⟩

/-- C10 witness: the theorem applied to the concrete state with the already
refused request, responded to again by its target, speaker 2. -/
theorem respond_resolved_active_entry_witness :
    (Mary.respond C10state 5 2 0 true none).2 = false ∧
    ∃ e : LedgerEntry,
      (Mary.respond C10state 5 2 0 true none).1.ledger.entries =
        C10state.ledger.entries ++ [e] ∧
      e.operation = "respond" ∧ e.status = some Status.active ∧
      e.breakReason = none :=
  respond_resolved_active_entry C10state 5 2 0 true none C10req (by decide) (by decide)
    (by decide)

/-! ### Claim C9 -/

/-- C9 counterexample: on the archived world, leave_world succeeds and
removes the member, and world_request succeeds and creates a request —
mutating operations the claim says are rejected. -/
theorem archived_world_counterexample :
    ((C9state.worlds.find? (fun p => p.1 == "world_0")).map (fun p => p.2.status)) =
      some "archived" ∧
    (Helena.leave_world C9state 6 3 "world_0").2 = true ∧
    ((Helena.leave_world C9state 6 3 "world_0").1.worlds.find?
        (fun p => p.1 == "world_0")).map (fun p => p.2.members.map (fun q => q.1)) =
      some [2] ∧
    (Helena.world_request C9state 6 3 2 "world_0" "ask" none).2 = some 0 := by
  refine ⟨by decide, by decide, by decide, by decide⟩

/-- C9 amended: an archived world rejects world_write (false, state
unchanged) and join_world (false, state unchanged); leave_world and
world_request carry no archived check and so are not rejected. -/
theorem archived_world_amended (h : HState) (now sid : Nat) (wid name : String)
    (v : Value) (perms : Option WorldPermissions) (world : World)
    (hw : (h.worlds.find? (fun p => p.1 == wid)).map (fun p => p.2) = some world)
    (ha : world.status = "archived") :
    Helena.world_write h now sid wid name v = (h, false) ∧
    Helena.join_world h now sid wid perms = (h, false) := by
  constructor
  · simp only [Helena.world_write, hw]
    by_cases hc : world.can sid "write" = false
    · simp [hc]
    · simp [hc, ha]
  · have hno : world.status ≠ "open" := by rw [ha]; decide
    simp only [Helena.join_world, hw]
    simp [hno]

/-- C9 amended witness: the amended theorem at the concrete archived world,
for member 3 attempting a write and a join. -/
theorem archived_world_amended_witness :
    Helena.world_write C9state 6 3 "world_0" "x" (Value.vint 1) = (C9state, false) ∧
    Helena.join_world C9state 6 3 "world_0" none = (C9state, false) :=
  archived_world_amended C9state 6 3 "world_0" "x" (Value.vint 1) none C9world
    (by decide) (by decide)

/-! ### Claim C4 -/

/-- C4 counterexample: respond and suspend_speaker do not authenticate the
caller — a suspended speaker 2 successfully responds to its request, and the
suspended root successfully suspends speaker 1. -/
theorem facade_auth_counterexample :
    C4state.registry.authenticate 2 = false ∧
    (Mary.respond C4state 5 2 0 true none).2 = true ∧
    C4rootSuspended.registry.authenticate 0 = false ∧
    (Mary.suspend_speaker C4rootSuspended 3 0 1).2 = true := by
  refine ⟨by decide, by decide, by decide, by decide⟩

/-- C4 amended: the state-changing operations create_speaker, read, write,
submit and request authenticate the caller first and, on failure, log one
broken entry and return a failure value; suspend_speaker instead checks only
that the caller id is 0 (any other caller fails with not_root, authenticated
or not), and respond checks only target-match, so neither authenticates. -/
theorem facade_auth_amended (st : KState) (now c : Nat)
    (h : st.registry.authenticate c = false) (hc : c ≠ 0)
    (name cl act : String) (v : Value) (owner target : Nat) (data : Option Value)
    (cond afn : Option (Nat → Except String Bool)) (ir : Bool) (su tmo : Option Nat) :
    ((Mary.create_speaker st now c name).2 = none ∧
     ∃ e : LedgerEntry,
       (Mary.create_speaker st now c name).1.ledger.entries =
         st.ledger.entries ++ [e] ∧
       e.status = some Status.broken ∧ e.breakReason = some "caller_not_authenticated") ∧
    ((Mary.read st now c owner name).2 = none ∧
     ∃ e : LedgerEntry,
       (Mary.read st now c owner name).1.ledger.entries = st.ledger.entries ++ [e] ∧
       e.status = some Status.broken ∧ e.breakReason = some "caller_not_authenticated") ∧
    ((Mary.write st now c name v).2 = false ∧
     ∃ e : LedgerEntry,
       (Mary.write st now c name v).1.ledger.entries = st.ledger.entries ++ [e] ∧
       e.status = some Status.broken ∧ e.breakReason = some "caller_not_authenticated") ∧
    ((Mary.submit st now c cond cl act afn ir su).2 = none ∧
     ∃ e : LedgerEntry,
       (Mary.submit st now c cond cl act afn ir su).1.ledger.entries =
         st.ledger.entries ++ [e] ∧
       e.status = some Status.broken ∧ e.breakReason = some "speaker_not_authenticated") ∧
    ((Mary.request st now c target act data tmo).2 = none ∧
     ∃ e : LedgerEntry,
       (Mary.request st now c target act data tmo).1.ledger.entries =
         st.ledger.entries ++ [e] ∧
       e.status = some Status.broken ∧ e.breakReason = some "caller_not_authenticated") ∧
    ((Mary.suspend_speaker st now c target).2 = false ∧
     ∃ e : LedgerEntry,
       (Mary.suspend_speaker st now c target).1.ledger.entries =
         st.ledger.entries ++ [e] ∧
       e.status = some Status.broken ∧ e.breakReason = some "not_root") := by
  refine ⟨?_, ?_, ?_, ?_, ?_, ?_⟩
  · simp only [Mary.create_speaker, if_pos h]
    exact ⟨trivial, _, rfl, rfl, rfl⟩
  · simp only [Mary.read, if_pos h]
    exact ⟨trivial, _, rfl, rfl, rfl⟩
  · simp only [Mary.write, if_pos h]
    exact ⟨trivial, _, rfl, rfl, rfl⟩
  · simp only [Mary.submit, if_pos h]
    exact ⟨trivial, _, rfl, rfl, rfl⟩
  · simp only [Mary.request, if_pos h]
    exact ⟨trivial, _, rfl, rfl, rfl⟩
  · simp only [Mary.suspend_speaker, if_pos hc]
    exact ⟨trivial, _, rfl, rfl, rfl⟩

/-- C4 amended witness: the amended theorem for the unknown caller 99 on the
freshly booted kernel. -/
theorem facade_auth_amended_witness :
    (Mary.create_speaker Mary.init 7 99 "X").2 = none ∧
    (Mary.read Mary.init 7 99 0 "x").2 = none ∧
    (Mary.write Mary.init 7 99 "x" Value.vnull).2 = false ∧
    (Mary.submit Mary.init 7 99 none "L" "act" none false none).2 = none ∧
    (Mary.request Mary.init 7 99 0 "act" none none).2 = none ∧
    (Mary.suspend_speaker Mary.init 7 99 0).2 = false := by
  have h := facade_auth_amended Mary.init 7 99 (by decide) (by decide)
    "X" "L" "act" Value.vnull 0 0 none none none false none none
  exact ⟨h.1.1, h.2.1.1, h.2.2.1.1, h.2.2.2.1.1, h.2.2.2.2.1.1, h.2.2.2.2.2.1⟩

/-! ### Claim C3 -/

theorem chainFrom_append_one (e : LedgerEntry) :
    ∀ (es : List LedgerEntry) (n : Nat) (hsh : String), chainFrom n hsh es →
      e.entryId = n + es.length → e.prevHash = lastHashOf hsh es →
      e.entryHash = sha256Hex16 (hashInput e) → chainFrom n hsh (es ++ [e]) := by
  intro es
  induction es with
  | nil =>
      intro n hsh _ hid hprev hhash
      exact ⟨by simpa using hid, hprev, hhash, trivial⟩
  | cons a rest ih =>
      intro n hsh hchain hid hprev hhash
      rw [List.length_cons] at hid
      exact ⟨hchain.1, hchain.2.1, hchain.2.2.1,
        ih (n + 1) a.entryHash hchain.2.2.2 (by omega) hprev hhash⟩

theorem lastHashOf_append_one (e : LedgerEntry) :
    ∀ (es : List LedgerEntry) (hsh : String),
      lastHashOf hsh (es ++ [e]) = e.entryHash := by
  intro es
  induction es with
  | nil => intro hsh; rfl
  | cons a rest ih => intro hsh; exact ih a.entryHash

/-- The hash stored by append is the digest of the published hash input. -/
theorem compute_hash_eq_hashInput (e : LedgerEntry) :
    e.compute_hash = sha256Hex16 (hashInput e) := rfl

seal sha256Hex16 in
/-- Invariant of every built ledger: the entries chain from ("genesis", 0)
and the cached last hash is the running hash of the entries. -/
theorem built_chain (l : Ledger) (h : Ledger.built l) :
    chainFrom 0 "genesis" l.entries ∧ l.lastHash = lastHashOf "genesis" l.entries := by
  induction h with
  | init => exact ⟨trivial, rfl⟩
  | append l now sid operation condition conditionResult action status sb sa br _ ih =>
      rw [Ledger.append]
      dsimp only
      constructor
      · apply chainFrom_append_one
        · exact ih.1
        · show l.entries.length = 0 + l.entries.length
          omega
        · exact ih.2
        · rfl
      · symm
        apply lastHashOf_append_one

/-- Reading the chain predicate off at an index. -/
theorem chainFrom_get :
    ∀ (es : List LedgerEntry) (n : Nat) (hsh : String), chainFrom n hsh es →
      ∀ (i : Nat) (hi : i < es.length),
        (es.get ⟨i, hi⟩).entryId = n + i ∧
        (es.get ⟨i, hi⟩).entryHash = sha256Hex16 (hashInput (es.get ⟨i, hi⟩)) ∧
        (i = 0 → (es.get ⟨i, hi⟩).prevHash = hsh) ∧
        (∀ (j : Nat) (hij : i = j + 1) (hj : j < es.length),
          (es.get ⟨i, hi⟩).prevHash = (es.get ⟨j, hj⟩).entryHash) := by
  intro es
  induction es with
  | nil => intro n hsh _ i hi; simp at hi
  | cons a rest ih =>
      intro n hsh hchain i hi
      cases i with
      | zero =>
          refine ⟨hchain.1.trans (by omega), hchain.2.2.1, fun _ => hchain.2.1, ?_⟩
          intro j hij; cases hij
      | succ m =>
          have hm : m < rest.length := Nat.lt_of_succ_lt_succ hi
          have hrest := ih (n + 1) a.entryHash hchain.2.2.2 m hm
          refine ⟨hrest.1.trans (by omega), hrest.2.1, ?_, ?_⟩
          · intro hm0; cases hm0
          · intro j hij hj
            cases j with
            | zero =>
                have : m = 0 := by omega
                subst this
                exact hrest.2.2.1 rfl
            | succ j1 =>
                have hj1 : j1 < rest.length := by
                  have := Nat.lt_of_succ_lt_succ hj
                  omega
                have : m = j1 + 1 := by omega
                exact hrest.2.2.2 j1 this hj1

/-- C3: in every ledger built by appends, entry i has entry_id i (the length
at append time), its entry_hash is the first 16 hex characters of the
SHA-256 digest of "entry_id:speaker_id:operation:action:timestamp:prev_hash",
the first entry's prev_hash is "genesis", and every later entry's prev_hash
is the previous entry's entry_hash. -/
theorem ledger_entry_hash_contract (l : Ledger) (h : Ledger.built l) (i : Nat)
    (hi : i < l.entries.length) :
    (l.entries.get ⟨i, hi⟩).entryId = i ∧
    (l.entries.get ⟨i, hi⟩).entryHash =
      sha256Hex16 (toString (l.entries.get ⟨i, hi⟩).entryId ++ ":" ++
        toString (l.entries.get ⟨i, hi⟩).speakerId ++ ":" ++
        (l.entries.get ⟨i, hi⟩).operation ++ ":" ++
        (l.entries.get ⟨i, hi⟩).action ++ ":" ++
        toString (l.entries.get ⟨i, hi⟩).timestamp ++ ":" ++
        (l.entries.get ⟨i, hi⟩).prevHash) ∧
    (i = 0 → (l.entries.get ⟨i, hi⟩).prevHash = "genesis") ∧
    (∀ (j : Nat) (hij : i = j + 1) (hj : j < l.entries.length),
      (l.entries.get ⟨i, hi⟩).prevHash = (l.entries.get ⟨j, hj⟩).entryHash) := by
  have hc := chainFrom_get l.entries 0 "genesis" (built_chain l h).1 i hi
  exact ⟨by simpa using hc.1, hc.2.1, hc.2.2.1, hc.2.2.2⟩

/-- C3 witness: the contract read off the two-entry ledger obtained by one
append on top of the boot entry, at index 1. -/
theorem ledger_entry_hash_contract_witness :
    1 < (C2sample.append 3 1 "write" none none "write:x" (some Status.active)
      none none none).entries.length ∧
    ((C2sample.append 3 1 "write" none none "write:x" (some Status.active)
      none none none).entries.get ⟨1, by decide⟩).entryId = 1 := by
  have h := ledger_entry_hash_contract
    (C2sample.append 3 1 "write" none none "write:x" (some Status.active) none none none)
    (Ledger.built.append _ 3 1 "write" none none "write:x" (some Status.active)
      none none none
      (Ledger.built.append _ 0 0 "boot" none none "mary_initialized"
        (some Status.active) none none none Ledger.built.init))
    1 (by decide)
  exact ⟨by decide, h.1⟩

/-! ### Claim C6 -/

/-- Inside evaluate_loop, a current, in-scope, authenticated expression with
no condition, no action and an always-true loop condition runs the loop to
the bound: the status is broken and the count is the full bound. -/
theorem evaluateLoopGo_runs_to_bound (now maxIter : Nat) (reg : SpeakerRegistry) :
    ∀ (fuel : Nat) (expr : Expression) (led : Ledger),
      reg.authenticate expr.speakerId = true →
      expr.version = Version.current → expr.scopeUntil = none →
      expr.condition = none → expr.actionFn = none → expr.isRefusal = false →
      expr.loopCondition = some (fun _ => true) →
      (Evaluator.evaluateLoopGo now maxIter reg fuel expr led).2.2.1 = Status.broken ∧
      (Evaluator.evaluateLoopGo now maxIter reg fuel expr led).2.2.2 = maxIter := by
  intro fuel
  induction fuel with
  | zero => intro expr led _ _ _ _ _ _ _; exact ⟨rfl, rfl⟩
  | succ n ih =>
      intro expr led hauth hver hscope hcond hact href hloop
      have hstep : Evaluator.evaluateLoopGo now maxIter reg (n + 1) expr led =
          Evaluator.evaluateLoopGo now maxIter reg n
            { expr with status := some Status.active }
            (led.append now expr.speakerId "evaluate" (some expr.conditionLabel)
              (some true) expr.action (some Status.active) none none none) := by
        simp [Evaluator.evaluateLoopGo, hloop, Evaluator.evaluate, hauth, hver,
          hscope, hcond, hact, evaluateFinish, href, scopeExpired]
      rw [hstep]
      exact ih _ _ hauth hver hscope hcond hact href hloop

/-- C6 counterexample: submitting the loop with loop_max = 0 executes 10000
iterations (Python `loop_max or 10000` treats 0 as absent) and ends broken
via loop_bound_exceeded — not zero iterations with one inactive loop_end. -/
theorem loop_max_zero_counterexample :
    C6loopExpr.loopMax = some 0 ∧
    (Evaluator.evaluate_loop 1 Mary.init.registry C6loopExpr Mary.init.ledger).2.2.2 =
      10000 ∧
    (Evaluator.evaluate_loop 1 Mary.init.registry C6loopExpr Mary.init.ledger).2.2.1 =
      Status.broken := by
  have h := evaluateLoopGo_runs_to_bound 1 10000 Mary.init.registry 10000 C6loopExpr
    Mary.init.ledger (by decide) rfl rfl rfl rfl rfl rfl
  have hm : effectiveLoopMax C6loopExpr.loopMax = 10000 := rfl
  refine ⟨rfl, ?_, ?_⟩
  · rw [Evaluator.evaluate_loop, hm]
    exact h.2
  · rw [Evaluator.evaluate_loop, hm]
    exact h.1

/-- The loop never returns a count above the effective bound. -/
theorem evaluateLoopGo_count_le (now maxIter : Nat) (reg : SpeakerRegistry) :
    ∀ (fuel : Nat) (expr : Expression) (led : Ledger), fuel ≤ maxIter →
      (Evaluator.evaluateLoopGo now maxIter reg fuel expr led).2.2.2 ≤ maxIter := by
  intro fuel
  induction fuel with
  | zero => intro expr led _; exact Nat.le_refl maxIter
  | succ n ih =>
      intro expr led hle
      rw [Evaluator.evaluateLoopGo]
      dsimp only
      split
      · dsimp only; omega
      · split
        · dsimp only; omega
        · split
          · dsimp only; omega
          · exact ih _ _ (Nat.le_of_succ_le hle)

/-- C6 amended: loop_max = 0 (like an absent loop_max) falls back to the
default safety bound 10000, and a loop evaluation never executes more
iterations than that effective bound. -/
theorem loop_bound_amended (now : Nat) (reg : SpeakerRegistry) (expr : Expression)
    (led : Ledger) :
    (Evaluator.evaluate_loop now reg expr led).2.2.2 ≤ effectiveLoopMax expr.loopMax ∧
    effectiveLoopMax (some 0) = 10000 ∧ effectiveLoopMax none = 10000 :=
  ⟨evaluateLoopGo_count_le now (effectiveLoopMax expr.loopMax) reg
    (effectiveLoopMax expr.loopMax) expr led (Nat.le_refl _), rfl, rfl⟩

/-! ### Claim C7 -/

/-- C7 counterexample: in C7expire, expression 0 is superseded but its class
has zero current expressions (the superseder expired); in C7loopSt,
expression 0 is superseded but its class has two current expressions
(submit_loop performs no supersession scan). -/
theorem supersession_counterexample :
    ((C7expire.expressions.find? (fun p => p.1 == 0)).map (fun p => p.2.version) =
      some Version.superseded) ∧
    ((C7expire.expressions.find? (fun p => p.1 == 0)).map
      (fun p => (p.2.speakerId, p.2.conditionLabel, p.2.action)) =
      some (1, "L", "act")) ∧
    countCurrentIn C7expire.expressions 1 "L" "act" = 0 ∧
    ((C7loopSt.expressions.find? (fun p => p.1 == 0)).map (fun p => p.2.version) =
      some Version.superseded) ∧
    countCurrentIn C7loopSt.expressions 1 "L" "act" = 2 := by
  refine ⟨by decide, by decide, by decide, by decide, by decide⟩

/-- The expression list produced by the supersession scan is a pointwise
marking. -/
theorem supersedeScan_fst (now sid : Nat) (cl act : String) (nid : Nat) :
    ∀ (exprs : List (Nat × Expression)) (led : Ledger),
      (supersedeScan now sid cl act nid exprs led).1 =
        exprs.map (supersedeMark sid cl act) := by
  intro exprs
  induction exprs with
  | nil => intro led; rfl
  | cons p rest ih =>
      intro led
      obtain ⟨eid, ex⟩ := p
      rw [supersedeScan]
      by_cases h : ex.speakerId = sid ∧ ex.action = act ∧ ex.conditionLabel = cl ∧
        ex.version = Version.current
      · rw [if_pos h]
        simp only [List.map_cons, supersedeMark, if_pos h, ih]
      · rw [if_neg h]
        simp only [List.map_cons, supersedeMark, if_neg h, ih]

/-- Evaluation of an unscoped expression can change only its status: version,
speaker, label and action are preserved. -/
theorem evaluate_shape (now k : Nat) (reg : SpeakerRegistry) (led : Ledger)
    (expr : Expression) (hscope : expr.scopeUntil = none) :
    (Evaluator.evaluate now k reg led expr).1.version = expr.version ∧
    (Evaluator.evaluate now k reg led expr).1.speakerId = expr.speakerId ∧
    (Evaluator.evaluate now k reg led expr).1.conditionLabel = expr.conditionLabel ∧
    (Evaluator.evaluate now k reg led expr).1.action = expr.action := by
  have hs : scopeExpired now expr.scopeUntil = false := by rw [hscope]; rfl
  unfold Evaluator.evaluate evaluateFinish
  rw [hs, if_neg Bool.false_ne_true]
  repeat' (first | split | dsimp only)
  all_goals exact ⟨rfl, rfl, rfl, rfl⟩

/-- create_speaker leaves the expression store untouched. -/
theorem create_speaker_exprs (st : KState) (now c : Nat) (n : String) :
    (Mary.create_speaker st now c n).1.expressions = st.expressions ∧
    (Mary.create_speaker st now c n).1.nextExprId = st.nextExprId := by
  unfold Mary.create_speaker
  split <;> exact ⟨rfl, rfl⟩

/-- suspend_speaker leaves the expression store untouched. -/
theorem suspend_speaker_exprs (st : KState) (now c t : Nat) :
    (Mary.suspend_speaker st now c t).1.expressions = st.expressions ∧
    (Mary.suspend_speaker st now c t).1.nextExprId = st.nextExprId := by
  unfold Mary.suspend_speaker
  split <;> exact ⟨rfl, rfl⟩

/-- read leaves the expression store untouched. -/
theorem read_exprs (st : KState) (now c o : Nat) (n : String) :
    (Mary.read st now c o n).1.expressions = st.expressions ∧
    (Mary.read st now c o n).1.nextExprId = st.nextExprId := by
  unfold Mary.read
  split <;> exact ⟨rfl, rfl⟩

/-- write leaves the expression store untouched. -/
theorem write_exprs (st : KState) (now c : Nat) (n : String) (v : Value) :
    (Mary.write st now c n v).1.expressions = st.expressions ∧
    (Mary.write st now c n v).1.nextExprId = st.nextExprId := by
  unfold Mary.write
  split
  · exact ⟨rfl, rfl⟩
  · exact ⟨rfl, rfl⟩

/-- write_to leaves the expression store untouched. -/
theorem write_to_exprs (st : KState) (now c t : Nat) (n : String) (v : Value) :
    (Mary.write_to st now c t n v).1.expressions = st.expressions ∧
    (Mary.write_to st now c t n v).1.nextExprId = st.nextExprId := by
  unfold Mary.write_to
  split
  · exact ⟨rfl, rfl⟩
  · exact write_exprs st now c n v

/-- request leaves the expression store untouched. -/
theorem request_exprs (st : KState) (now c t : Nat) (a : String) (d : Option Value)
    (tmo : Option Nat) :
    (Mary.request st now c t a d tmo).1.expressions = st.expressions ∧
    (Mary.request st now c t a d tmo).1.nextExprId = st.nextExprId := by
  unfold Mary.request
  split
  · exact ⟨rfl, rfl⟩
  · split
    · exact ⟨rfl, rfl⟩
    · exact ⟨rfl, rfl⟩

/-- respond leaves the expression store untouched. -/
theorem respond_exprs (st : KState) (now c rid : Nat) (acc : Bool) (d : Option Value) :
    (Mary.respond st now c rid acc d).1.expressions = st.expressions ∧
    (Mary.respond st now c rid acc d).1.nextExprId = st.nextExprId := by
  unfold Mary.respond
  split
  · exact ⟨rfl, rfl⟩
  · split
    · exact ⟨rfl, rfl⟩
    · exact ⟨rfl, rfl⟩

theorem supersedeMark_fst (sid : Nat) (cl act : String) (p : Nat × Expression) :
    (supersedeMark sid cl act p).1 = p.1 := by
  unfold supersedeMark
  split <;> rfl

theorem countCurrentIn_append (xs ys : List (Nat × Expression)) (s : Nat)
    (c a : String) :
    countCurrentIn (xs ++ ys) s c a = countCurrentIn xs s c a + countCurrentIn ys s c a := by
  simp [countCurrentIn, List.filter_append]

/-- After the scan, the submitted class holds no current expression. -/
theorem countCurrentIn_marked_zero (sid : Nat) (cl act : String) :
    ∀ exprs : List (Nat × Expression),
      countCurrentIn (exprs.map (supersedeMark sid cl act)) sid cl act = 0 := by
  intro exprs
  induction exprs with
  | nil => rfl
  | cons p rest ih =>
      rw [List.map_cons]
      unfold countCurrentIn at ih ⊢
      rw [List.filter_cons]
      by_cases hm : p.2.speakerId = sid ∧ p.2.action = act ∧ p.2.conditionLabel = cl ∧
        p.2.version = Version.current
      · rw [supersedeMark, if_pos hm]
        simp only [beq_iff_eq]
        simp [ih]
      · rw [supersedeMark, if_neg hm]
        have hp : (p.2.version == Version.current && p.2.speakerId == sid &&
            p.2.conditionLabel == cl && p.2.action == act) = false := by
          cases hb : (p.2.version == Version.current && p.2.speakerId == sid &&
            p.2.conditionLabel == cl && p.2.action == act) with
          | false => rfl
          | true =>
              simp only [Bool.and_eq_true, beq_iff_eq] at hb
              exact absurd ⟨hb.1.1.2, hb.2, hb.1.2, hb.1.1.1⟩ hm
        rw [hp]
        exact ih

/-- The scan does not change the current-count of any other class. -/
theorem countCurrentIn_marked_other (sid : Nat) (cl act : String) (s : Nat)
    (c a : String) (hne : ¬(s = sid ∧ c = cl ∧ a = act)) :
    ∀ exprs : List (Nat × Expression),
      countCurrentIn (exprs.map (supersedeMark sid cl act)) s c a =
        countCurrentIn exprs s c a := by
  intro exprs
  induction exprs with
  | nil => rfl
  | cons p rest ih =>
      rw [List.map_cons]
      unfold countCurrentIn at ih ⊢
      rw [List.filter_cons, List.filter_cons]
      by_cases hm : p.2.speakerId = sid ∧ p.2.action = act ∧ p.2.conditionLabel = cl ∧
        p.2.version = Version.current
      · have hporig : (p.2.version == Version.current && p.2.speakerId == s &&
            p.2.conditionLabel == c && p.2.action == a) = false := by
          cases hb : (p.2.version == Version.current && p.2.speakerId == s &&
            p.2.conditionLabel == c && p.2.action == a) with
          | false => rfl
          | true =>
              simp only [Bool.and_eq_true, beq_iff_eq] at hb
              refine absurd ⟨?_, ?_, ?_⟩ hne
              · rw [← hb.1.1.2]; exact hm.1
              · rw [← hb.1.2]; exact hm.2.2.1
              · rw [← hb.2]; exact hm.2.1
        rw [supersedeMark, if_pos hm]
        have hmarked : (((p.1, { p.2 with version := Version.superseded }) :
            Nat × Expression).2.version == Version.current &&
            ((p.1, { p.2 with version := Version.superseded }) :
              Nat × Expression).2.speakerId == s &&
            ((p.1, { p.2 with version := Version.superseded }) :
              Nat × Expression).2.conditionLabel == c &&
            ((p.1, { p.2 with version := Version.superseded }) :
              Nat × Expression).2.action == a) = false := by
          simp
        rw [if_neg (by rw [hmarked]; exact Bool.false_ne_true),
          if_neg (by rw [hporig]; exact Bool.false_ne_true)]
        exact ih
      · rw [supersedeMark, if_neg hm]
        by_cases hp : (p.2.version == Version.current && p.2.speakerId == s &&
            p.2.conditionLabel == c && p.2.action == a) = true
        · rw [if_pos hp, if_pos hp]
          simp only [List.length_cons]
          rw [ih]
        · rw [if_neg hp, if_neg hp]
          exact ih

/-- Updating the key just appended, when it is fresh for the prefix, rewrites
only the appended pair. -/
theorem alistSet_append_fresh (xs : List (Nat × Expression)) (k : Nat)
    (a b : Expression) (hf : ∀ p ∈ xs, p.1 ≠ k) :
    alistSet (xs ++ [(k, a)]) k b = xs ++ [(k, b)] := by
  unfold alistSet
  have hany : ((xs ++ [(k, a)]).any (fun p => p.1 == k)) = true := by
    rw [List.any_append]
    simp
  rw [if_pos hany, List.map_append]
  congr 1
  · conv_rhs => rw [show xs = xs.map id from (List.map_id xs).symm]
    apply List.map_congr_left
    intro p hp
    rw [if_neg (by simpa using hf p hp)]
    rfl
  · simp

/-- What Mary.submit does to the expression store for an authenticated
speaker: scan-mark everything, then append the evaluated fresh expression
under the fresh key. -/
theorem submit_exprs (st : KState) (now sid : Nat)
    (cond : Option (Nat → Except String Bool)) (cl act : String)
    (afn : Option (Nat → Except String Bool)) (ir : Bool)
    (hauth : st.registry.authenticate sid = true)
    (hfresh : ∀ p ∈ st.expressions, p.1 ≠ st.nextExprId) :
    (Mary.submit st now sid cond cl act afn ir none).1.expressions =
      st.expressions.map (supersedeMark sid cl act) ++
        [(st.nextExprId,
          (Evaluator.evaluate now 0 st.registry
            (supersedeScan now sid cl act st.nextExprId st.expressions st.ledger).2
            (mkExpression st.nextExprId sid cond cl act afn now none ir none none)).1)] ∧
    (Mary.submit st now sid cond cl act afn ir none).1.nextExprId = st.nextExprId + 1 := by
  have h1 : (Mary.submit st now sid cond cl act afn ir none).1.expressions =
      alistSet ((supersedeScan now sid cl act st.nextExprId st.expressions st.ledger).1 ++
        [(st.nextExprId, mkExpression st.nextExprId sid cond cl act afn now none ir none none)])
        st.nextExprId
        (Evaluator.evaluate now 0 st.registry
          (supersedeScan now sid cl act st.nextExprId st.expressions st.ledger).2
          (mkExpression st.nextExprId sid cond cl act afn now none ir none none)).1 := by
    unfold Mary.submit
    rw [if_neg (by simp [hauth])]
    rfl
  constructor
  · rw [h1, supersedeScan_fst]
    apply alistSet_append_fresh
    intro p hp
    rcases List.mem_map.mp hp with ⟨q, hq, rfl⟩
    rw [supersedeMark_fst]
    exact hfresh q hq
  · unfold Mary.submit
    rw [if_neg (by simp [hauth])]

/-- Mary.submit by an unauthenticated speaker only logs; the expression
store is untouched. -/
theorem submit_exprs_unauth (st : KState) (now sid : Nat)
    (cond : Option (Nat → Except String Bool)) (cl act : String)
    (afn : Option (Nat → Except String Bool)) (ir : Bool) (su : Option Nat)
    (hauth : st.registry.authenticate sid = false) :
    (Mary.submit st now sid cond cl act afn ir su).1.expressions = st.expressions ∧
    (Mary.submit st now sid cond cl act afn ir su).1.nextExprId = st.nextExprId := by
  unfold Mary.submit
  rw [if_pos hauth]
  exact ⟨rfl, rfl⟩

theorem supersedeMark_class (sid : Nat) (cl act : String) (q : Nat × Expression) :
    (supersedeMark sid cl act q).2.speakerId = q.2.speakerId ∧
    (supersedeMark sid cl act q).2.conditionLabel = q.2.conditionLabel ∧
    (supersedeMark sid cl act q).2.action = q.2.action := by
  unfold supersedeMark
  split <;> exact ⟨rfl, rfl, rfl⟩

theorem supersedeMark_superseded (sid : Nat) (cl act : String) (q : Nat × Expression)
    (hver : (supersedeMark sid cl act q).2.version = Version.superseded) :
    (q.2.speakerId = sid ∧ q.2.action = act ∧ q.2.conditionLabel = cl) ∨
      q.2.version = Version.superseded := by
  by_cases hm : q.2.speakerId = sid ∧ q.2.action = act ∧ q.2.conditionLabel = cl ∧
    q.2.version = Version.current
  · exact Or.inl ⟨hm.1, hm.2.1, hm.2.2.1⟩
  · right
    rw [supersedeMark, if_neg hm] at hver
    exact hver

theorem countCurrentIn_singleton_pos (k : Nat) (e : Expression) (s : Nat) (c a : String)
    (h1 : e.version = Version.current) (h2 : e.speakerId = s) (h3 : e.conditionLabel = c)
    (h4 : e.action = a) : countCurrentIn [(k, e)] s c a = 1 := by
  unfold countCurrentIn
  rw [List.filter_cons]
  simp [h1, h2, h3, h4]

theorem countCurrentIn_singleton_ne (k : Nat) (e : Expression) (s : Nat) (c a : String)
    (hne : ¬(e.speakerId = s ∧ e.conditionLabel = c ∧ e.action = a)) :
    countCurrentIn [(k, e)] s c a = 0 := by
  unfold countCurrentIn
  rw [List.filter_cons]
  have hp : (((k, e) : Nat × Expression).2.version == Version.current &&
      ((k, e) : Nat × Expression).2.speakerId == s &&
      ((k, e) : Nat × Expression).2.conditionLabel == c &&
      ((k, e) : Nat × Expression).2.action == a) = false := by
    cases hb : (((k, e) : Nat × Expression).2.version == Version.current &&
      ((k, e) : Nat × Expression).2.speakerId == s &&
      ((k, e) : Nat × Expression).2.conditionLabel == c &&
      ((k, e) : Nat × Expression).2.action == a) with
    | false => rfl
    | true =>
        simp only [Bool.and_eq_true, beq_iff_eq] at hb
        exact absurd ⟨hb.1.1.2, hb.1.2, hb.2⟩ hne
  rw [if_neg (by rw [hp]; exact Bool.false_ne_true)]
  rfl

theorem countCurrentIn_singleton_le (k : Nat) (e : Expression) (s : Nat) (c a : String) :
    countCurrentIn [(k, e)] s c a ≤ 1 := by
  unfold countCurrentIn
  rw [List.filter_cons]
  split <;> simp

theorem reachNS_aux (st : KState) (h : ReachNS st) : SupInvAux st := by
  induction h with
  | init =>
      refine ⟨fun s c a => ?_, fun p hp => absurd hp (by simp [Mary.init]), fun p hp =>
        absurd hp (by simp [Mary.init])⟩
      show countCurrentIn [] s c a ≤ 1
      simp [countCurrentIn]
  | create_speaker st now c n hr ih =>
      obtain ⟨h1, h2⟩ := create_speaker_exprs st now c n
      simp only [SupInvAux] at ih ⊢
      rw [h1, h2]
      exact ih
  | suspend_speaker st now c t hr ih =>
      obtain ⟨h1, h2⟩ := suspend_speaker_exprs st now c t
      simp only [SupInvAux] at ih ⊢
      rw [h1, h2]
      exact ih
  | read st now c o n hr ih =>
      obtain ⟨h1, h2⟩ := read_exprs st now c o n
      simp only [SupInvAux] at ih ⊢
      rw [h1, h2]
      exact ih
  | write st now c n v hr ih =>
      obtain ⟨h1, h2⟩ := write_exprs st now c n v
      simp only [SupInvAux] at ih ⊢
      rw [h1, h2]
      exact ih
  | write_to st now c t n v hr ih =>
      obtain ⟨h1, h2⟩ := write_to_exprs st now c t n v
      simp only [SupInvAux] at ih ⊢
      rw [h1, h2]
      exact ih
  | request st now c t a d tmo hr ih =>
      obtain ⟨h1, h2⟩ := request_exprs st now c t a d tmo
      simp only [SupInvAux] at ih ⊢
      rw [h1, h2]
      exact ih
  | respond st now c rid acc d hr ih =>
      obtain ⟨h1, h2⟩ := respond_exprs st now c rid acc d
      simp only [SupInvAux] at ih ⊢
      rw [h1, h2]
      exact ih
  | submit st now sid cond cl act afn ir hr ih =>
      by_cases hauth : st.registry.authenticate sid = true
      · have hfresh : ∀ p ∈ st.expressions, p.1 ≠ st.nextExprId :=
          fun p hp => Nat.ne_of_lt (ih.2.2 p hp)
        obtain ⟨hexprs, hnext⟩ := submit_exprs st now sid cond cl act afn ir hauth hfresh
        have hshape := evaluate_shape now 0 st.registry
          (supersedeScan now sid cl act st.nextExprId st.expressions st.ledger).2
          (mkExpression st.nextExprId sid cond cl act afn now none ir none none) rfl
        set e2 := (Evaluator.evaluate now 0 st.registry
          (supersedeScan now sid cl act st.nextExprId st.expressions st.ledger).2
          (mkExpression st.nextExprId sid cond cl act afn now none ir none none)).1 with he2
        have hcur : e2.version = Version.current := hshape.1
        have hsid : e2.speakerId = sid := hshape.2.1
        have hcl : e2.conditionLabel = cl := hshape.2.2.1
        have hact : e2.action = act := hshape.2.2.2
        have hcount : ∀ (s : Nat) (c a : String),
            countCurrentIn (Mary.submit st now sid cond cl act afn ir none).1.expressions
              s c a =
            countCurrentIn (st.expressions.map (supersedeMark sid cl act)) s c a +
              countCurrentIn [(st.nextExprId, e2)] s c a := by
          intro s c a
          rw [hexprs, countCurrentIn_append]
        refine ⟨?_, ?_, ?_⟩
        · intro s c a
          rw [hcount]
          by_cases hcls : s = sid ∧ c = cl ∧ a = act
          · obtain ⟨rfl, rfl, rfl⟩ := hcls
            rw [countCurrentIn_marked_zero]
            simpa using countCurrentIn_singleton_le st.nextExprId e2 s c a
          · rw [countCurrentIn_marked_other sid cl act s c a hcls,
              countCurrentIn_singleton_ne st.nextExprId e2 s c a (by
                intro hcon
                exact hcls ⟨hcon.1.symm.trans hsid, hcon.2.1.symm.trans hcl,
                  hcon.2.2.symm.trans hact⟩)]
            simpa using ih.1 s c a
        · intro p hp hver
          rw [hexprs] at hp
          rcases List.mem_append.mp hp with hp | hp
          · rcases List.mem_map.mp hp with ⟨q, hq, rfl⟩
            obtain ⟨hms, hmc, hma⟩ := supersedeMark_class sid cl act q
            rw [hcount, hms, hmc, hma]
            rcases supersedeMark_superseded sid cl act q hver with hmk | hsup
            · obtain ⟨rfl, rfl, rfl⟩ := hmk
              rw [countCurrentIn_marked_zero,
                countCurrentIn_singleton_pos st.nextExprId e2 _ _ _ hcur hsid hcl hact]
            · by_cases hcls : q.2.speakerId = sid ∧ q.2.conditionLabel = cl ∧
                q.2.action = act
              · obtain ⟨h1, h2, h3⟩ := hcls
                rw [h1, h2, h3, countCurrentIn_marked_zero,
                  countCurrentIn_singleton_pos st.nextExprId e2 _ _ _ hcur hsid hcl hact]
              · rw [countCurrentIn_marked_other sid cl act _ _ _ hcls,
                  countCurrentIn_singleton_ne st.nextExprId e2 _ _ _ (by
                    intro hcon
                    exact hcls ⟨hcon.1.symm.trans hsid, hcon.2.1.symm.trans hcl,
                      hcon.2.2.symm.trans hact⟩)]
                rw [Nat.add_zero]
                exact ih.2.1 q hq hsup
          · rcases List.mem_singleton.mp hp with rfl
            rw [hcur] at hver
            cases hver
        · intro p hp
          rw [hexprs] at hp
          rw [hnext]
          rcases List.mem_append.mp hp with hp | hp
          · rcases List.mem_map.mp hp with ⟨q, hq, rfl⟩
            rw [supersedeMark_fst]
            exact Nat.lt_succ_of_lt (ih.2.2 q hq)
          · rcases List.mem_singleton.mp hp with rfl
            exact Nat.lt_succ_self _
      · have hfalse : st.registry.authenticate sid = false := by
          cases hb : st.registry.authenticate sid with
          | false => rfl
          | true => exact absurd hb hauth
        obtain ⟨h1, h2⟩ := submit_exprs_unauth st now sid cond cl act afn ir none hfalse
        simp only [SupInvAux] at ih ⊢
        rw [h1, h2]
        exact ih

/-- C7 amended: in every kernel state reachable through the façade without
scoped submissions and without submit_loop, every superseded expression has
exactly one current expression in its (speaker, condition_label, action)
class. -/
theorem supersession_amended (st : KState) (h : ReachNS st) :
    ∀ p ∈ st.expressions, p.2.version = Version.superseded →
      countCurrentIn st.expressions p.2.speakerId p.2.conditionLabel p.2.action = 1 :=
  (reachNS_aux st h).2.1

/-- C7 amended witness: the amended theorem at the concrete two-submission
state and its stored superseded expression; reachability is the explicit
constructor chain. -/
theorem supersession_amended_witness :
    countCurrentIn C7witnessState.expressions C7supersededExpr.speakerId
      C7supersededExpr.conditionLabel C7supersededExpr.action = 1 :=
  supersession_amended C7witnessState
    (ReachNS.submit _ 11 1 none "L" "act" none false
      (ReachNS.submit _ 10 1 none "L" "act" none false
        (ReachNS.create_speaker _ 1 0 "A" ReachNS.init)))
    (0, C7supersededExpr) (List.mem_cons_self _ _) rfl

/-! ### Claim C8 -/

/-- C8 counterexample: an unauthenticated submit logs a broken entry whose
break_reason, speaker_not_authenticated, is outside the spec's closed set. -/
theorem break_reason_counterexample :
    (((Mary.submit Mary.init 1 99 none "L" "act" none false none).1.ledger.entries.getLast?).map
      (fun e => (e.status, e.breakReason))) =
      some (some Status.broken, some "speaker_not_authenticated") ∧
    ¬ inSpecBreakSet "speaker_not_authenticated" := by
  constructor
  · decide
  · rintro (hmem | ⟨n, hn⟩)
    · revert hmem
      decide
    · have h1 : ("speaker_not_authenticated").data.head? = some 's' := rfl
      rw [hn, String.data_append, String.data_append] at h1
      simp at h1

theorem breakOk_nonbroken (e : LedgerEntry) (h : e.status ≠ some Status.broken) :
    BreakReasonOk e := fun hst => absurd hst h

theorem breakOk_listed (e : LedgerEntry) (s : String) (hbr : e.breakReason = some s)
    (hs : s ∈ extendedBreakReasons) : BreakReasonOk e :=
  fun _ => Or.inl ⟨s, hbr, hs⟩

theorem breakOk_eval_exception (e : LedgerEntry) (hop : e.operation = "evaluate")
    (hcr : e.conditionResult = some true) : BreakReasonOk e :=
  fun _ => Or.inr (Or.inr ⟨hop, hcr⟩)

theorem breakOk_maxIter (e : LedgerEntry) (n : Nat)
    (hbr : e.breakReason = some ("max_iterations_" ++ toString n ++ "_exceeded")) :
    BreakReasonOk e := fun _ => Or.inr (Or.inl ⟨n, hbr⟩)

/-- Membership in an appended ledger: an old entry, or the one new entry
with the given fields. -/
theorem mem_append_entries (l : Ledger) (now sid : Nat) (op : String)
    (cond : Option String) (cr : Option Bool) (act : String) (stt : Option Status)
    (sb sa : Option String) (br : Option String) (e : LedgerEntry)
    (he : e ∈ (l.append now sid op cond cr act stt sb sa br).entries) :
    e ∈ l.entries ∨ (e.operation = op ∧ e.conditionResult = cr ∧ e.status = stt ∧
      e.breakReason = br) := by
  simp only [Ledger.append] at he
  rcases List.mem_append.mp he with h | h
  · exact Or.inl h
  · rcases List.mem_singleton.mp h with rfl
    exact Or.inr ⟨rfl, rfl, rfl, rfl⟩

/-- Every entry evaluate adds is accounted for. -/
theorem evaluate_entries (now k : Nat) (reg : SpeakerRegistry) (led : Ledger)
    (expr : Expression) (e : LedgerEntry)
    (he : e ∈ (Evaluator.evaluate now k reg led expr).2.1.entries) :
    e ∈ led.entries ∨ BreakReasonOk e := by
  unfold Evaluator.evaluate evaluateFinish at he
  repeat' (first | split at he | dsimp only at he)
  all_goals
    first
    | exact Or.inl he
    | (rcases mem_append_entries _ _ _ _ _ _ _ _ _ _ _ _ he with h | ⟨hop, hcr, hst, hbr⟩
       · exact Or.inl h
       · right
         first
         | (refine breakOk_nonbroken e ?_
            rw [hst]
            simp
            done)
         | (refine breakOk_listed e _ hbr ?_
            decide
            done)
         | exact breakOk_eval_exception e hop hcr)

/-- Every entry the loop evaluator adds is accounted for. -/
theorem evaluateLoopGo_entries (now maxIter : Nat) (reg : SpeakerRegistry) :
    ∀ (fuel : Nat) (expr : Expression) (led : Ledger) (e : LedgerEntry),
      e ∈ (Evaluator.evaluateLoopGo now maxIter reg fuel expr led).2.1.entries →
      e ∈ led.entries ∨ BreakReasonOk e := by
  intro fuel
  induction fuel with
  | zero =>
      intro expr led e he
      rcases mem_append_entries _ _ _ _ _ _ _ _ _ _ _ _ he with h | ⟨hop, hcr, hst, hbr⟩
      · exact Or.inl h
      · exact Or.inr (breakOk_maxIter e maxIter hbr)
  | succ n ih =>
      intro expr led e he
      rw [Evaluator.evaluateLoopGo] at he
      dsimp only at he
      split at he
      · rcases mem_append_entries _ _ _ _ _ _ _ _ _ _ _ _ he with h | ⟨hop, hcr, hst, hbr⟩
        · exact Or.inl h
        · exact Or.inr (breakOk_nonbroken e (by rw [hst]; simp))
      · split at he
        · exact evaluate_entries now _ reg led expr e he
        · split at he
          · exact evaluate_entries now _ reg led expr e he
          · rcases ih _ _ e he with h | h
            · exact evaluate_entries now _ reg led expr e h
            · exact Or.inr h

/-- Every entry the supersession scan adds is a supersede entry with status
active. -/
theorem supersedeScan_entries (now sid : Nat) (cl act : String) (nid : Nat) :
    ∀ (exprs : List (Nat × Expression)) (led : Ledger) (e : LedgerEntry),
      e ∈ (supersedeScan now sid cl act nid exprs led).2.entries →
      e ∈ led.entries ∨ BreakReasonOk e := by
  intro exprs
  induction exprs with
  | nil => intro led e he; exact Or.inl he
  | cons p rest ih =>
      intro led e he
      obtain ⟨eid, ex⟩ := p
      rw [supersedeScan] at he
      by_cases hm : ex.speakerId = sid ∧ ex.action = act ∧ ex.conditionLabel = cl ∧
        ex.version = Version.current
      · rw [if_pos hm] at he
        dsimp only at he
        rcases ih _ e he with h | h
        · rcases mem_append_entries _ _ _ _ _ _ _ _ _ _ _ _ h with h2 | ⟨hop, hcr, hst, hbr⟩
          · exact Or.inl h2
          · exact Or.inr (breakOk_nonbroken e (by rw [hst]; simp))
        · exact Or.inr h
      · rw [if_neg hm] at he
        dsimp only at he
        exact ih _ e he

theorem create_speaker_entries (st : KState) (now c : Nat) (n : String) (e : LedgerEntry)
    (he : e ∈ (Mary.create_speaker st now c n).1.ledger.entries) :
    e ∈ st.ledger.entries ∨ BreakReasonOk e := by
  unfold Mary.create_speaker at he
  split at he
  · rcases mem_append_entries _ _ _ _ _ _ _ _ _ _ _ _ he with h | ⟨hop, hcr, hst, hbr⟩
    · exact Or.inl h
    · exact Or.inr (breakOk_listed e "caller_not_authenticated" hbr (by decide))
  · rcases mem_append_entries _ _ _ _ _ _ _ _ _ _ _ _ he with h | ⟨hop, hcr, hst, hbr⟩
    · exact Or.inl h
    · exact Or.inr (breakOk_nonbroken e (by rw [hst]; simp))

theorem suspend_speaker_entries (st : KState) (now c t : Nat) (e : LedgerEntry)
    (he : e ∈ (Mary.suspend_speaker st now c t).1.ledger.entries) :
    e ∈ st.ledger.entries ∨ BreakReasonOk e := by
  unfold Mary.suspend_speaker at he
  split at he
  · rcases mem_append_entries _ _ _ _ _ _ _ _ _ _ _ _ he with h | ⟨hop, hcr, hst, hbr⟩
    · exact Or.inl h
    · exact Or.inr (breakOk_listed e "not_root" hbr (by decide))
  · dsimp only at he
    rcases mem_append_entries _ _ _ _ _ _ _ _ _ _ _ _ he with h | ⟨hop, hcr, hst, hbr⟩
    · exact Or.inl h
    · by_cases hsu : (st.registry.suspend t).2 = true
      · rw [if_pos hsu] at hst
        exact Or.inr (breakOk_nonbroken e (by rw [hst]; simp))
      · rw [if_neg hsu] at hbr
        exact Or.inr (breakOk_listed e "speaker_not_found" hbr (by decide))

theorem read_entries (st : KState) (now c o : Nat) (n : String) (e : LedgerEntry)
    (he : e ∈ (Mary.read st now c o n).1.ledger.entries) :
    e ∈ st.ledger.entries ∨ BreakReasonOk e := by
  unfold Mary.read at he
  split at he
  · rcases mem_append_entries _ _ _ _ _ _ _ _ _ _ _ _ he with h | ⟨hop, hcr, hst, hbr⟩
    · exact Or.inl h
    · exact Or.inr (breakOk_listed e "caller_not_authenticated" hbr (by decide))
  · rcases mem_append_entries _ _ _ _ _ _ _ _ _ _ _ _ he with h | ⟨hop, hcr, hst, hbr⟩
    · exact Or.inl h
    · exact Or.inr (breakOk_nonbroken e (by rw [hst]; simp))

theorem write_entries (st : KState) (now c : Nat) (n : String) (v : Value)
    (e : LedgerEntry) (he : e ∈ (Mary.write st now c n v).1.ledger.entries) :
    e ∈ st.ledger.entries ∨ BreakReasonOk e := by
  unfold Mary.write at he
  split at he
  · rcases mem_append_entries _ _ _ _ _ _ _ _ _ _ _ _ he with h | ⟨hop, hcr, hst, hbr⟩
    · exact Or.inl h
    · exact Or.inr (breakOk_listed e "caller_not_authenticated" hbr (by decide))
  · dsimp only at he
    rcases mem_append_entries _ _ _ _ _ _ _ _ _ _ _ _ he with h | ⟨hop, hcr, hst, hbr⟩
    · exact Or.inl h
    · by_cases hsu : (st.memory.write c n v).2.1 = true
      · rw [if_pos hsu] at hst
        exact Or.inr (breakOk_nonbroken e (by rw [hst]; simp))
      · rw [if_neg hsu] at hbr
        exact Or.inr (breakOk_listed e "write_failed" hbr (by decide))

theorem write_to_entries (st : KState) (now c t : Nat) (n : String) (v : Value)
    (e : LedgerEntry) (he : e ∈ (Mary.write_to st now c t n v).1.ledger.entries) :
    e ∈ st.ledger.entries ∨ BreakReasonOk e := by
  unfold Mary.write_to at he
  split at he
  · rcases mem_append_entries _ _ _ _ _ _ _ _ _ _ _ _ he with h | ⟨hop, hcr, hst, hbr⟩
    · exact Or.inl h
    · exact Or.inr (breakOk_listed e "write_ownership_violation" hbr (by decide))
  · exact write_entries st now c n v e he

theorem request_entries (st : KState) (now c t : Nat) (a : String) (d : Option Value)
    (tmo : Option Nat) (e : LedgerEntry)
    (he : e ∈ (Mary.request st now c t a d tmo).1.ledger.entries) :
    e ∈ st.ledger.entries ∨ BreakReasonOk e := by
  unfold Mary.request at he
  split at he
  · rcases mem_append_entries _ _ _ _ _ _ _ _ _ _ _ _ he with h | ⟨hop, hcr, hst, hbr⟩
    · exact Or.inl h
    · exact Or.inr (breakOk_listed e "caller_not_authenticated" hbr (by decide))
  · split at he
    · rcases mem_append_entries _ _ _ _ _ _ _ _ _ _ _ _ he with h | ⟨hop, hcr, hst, hbr⟩
      · exact Or.inl h
      · exact Or.inr (breakOk_listed e "target_not_found" hbr (by decide))
    · dsimp only at he
      rcases mem_append_entries _ _ _ _ _ _ _ _ _ _ _ _ he with h | ⟨hop, hcr, hst, hbr⟩
      · exact Or.inl h
      · exact Or.inr (breakOk_nonbroken e (by rw [hst]; simp))

theorem respond_entries (st : KState) (now c rid : Nat) (acc : Bool) (d : Option Value)
    (e : LedgerEntry) (he : e ∈ (Mary.respond st now c rid acc d).1.ledger.entries) :
    e ∈ st.ledger.entries ∨ BreakReasonOk e := by
  unfold Mary.respond at he
  split at he
  · rcases mem_append_entries _ _ _ _ _ _ _ _ _ _ _ _ he with h | ⟨hop, hcr, hst, hbr⟩
    · exact Or.inl h
    · exact Or.inr (breakOk_listed e "request_not_found" hbr (by decide))
  · split at he
    · rcases mem_append_entries _ _ _ _ _ _ _ _ _ _ _ _ he with h | ⟨hop, hcr, hst, hbr⟩
      · exact Or.inl h
      · exact Or.inr (breakOk_listed e "not_target_speaker" hbr (by decide))
    · dsimp only at he
      rcases mem_append_entries _ _ _ _ _ _ _ _ _ _ _ _ he with h | ⟨hop, hcr, hst, hbr⟩
      · exact Or.inl h
      · exact Or.inr (breakOk_nonbroken e (by rw [hst]; simp))

theorem submit_entries (st : KState) (now sid : Nat)
    (cond : Option (Nat → Except String Bool)) (cl act : String)
    (afn : Option (Nat → Except String Bool)) (ir : Bool) (su : Option Nat)
    (e : LedgerEntry)
    (he : e ∈ (Mary.submit st now sid cond cl act afn ir su).1.ledger.entries) :
    e ∈ st.ledger.entries ∨ BreakReasonOk e := by
  unfold Mary.submit at he
  split at he
  · rcases mem_append_entries _ _ _ _ _ _ _ _ _ _ _ _ he with h | ⟨hop, hcr, hst, hbr⟩
    · exact Or.inl h
    · exact Or.inr (breakOk_listed e "speaker_not_authenticated" hbr (by decide))
  · dsimp only at he
    rcases evaluate_entries now 0 st.registry _ _ e he with h | h
    · exact supersedeScan_entries now sid cl act st.nextExprId st.expressions st.ledger e h
    · exact Or.inr h

theorem submit_loop_entries (st : KState) (now sid : Nat)
    (cond : Option (Nat → Except String Bool)) (cl act : String)
    (afn : Option (Nat → Except String Bool)) (lc : Option (Nat → Bool))
    (lm : Option Nat) (e : LedgerEntry)
    (he : e ∈ (Mary.submit_loop st now sid cond cl act afn lc lm).1.ledger.entries) :
    e ∈ st.ledger.entries ∨ BreakReasonOk e := by
  unfold Mary.submit_loop at he
  split at he
  · exact Or.inl he
  · dsimp only at he
    exact evaluateLoopGo_entries now _ st.registry _ _ st.ledger e he

/-- C8 amended: in every reachable kernel state, every broken ledger entry
carries a break_reason from the spec set extended with
speaker_not_authenticated and speaker_not_found, or the loop-bound reason,
or it records an action exception (operation evaluate, condition_result
true) and carries the raised message. -/
theorem break_reasons_amended (st : KState) (h : Reach st) :
    ∀ e ∈ st.ledger.entries, BreakReasonOk e := by
  induction h with
  | init =>
      intro e he
      rcases mem_append_entries _ _ _ _ _ _ _ _ _ _ _ _ he with h | ⟨hop, hcr, hst, hbr⟩
      · cases h
      · exact breakOk_nonbroken e (by rw [hst]; simp)
  | create_speaker st now c n hr ih =>
      intro e he
      rcases create_speaker_entries st now c n e he with h | h
      · exact ih e h
      · exact h
  | suspend_speaker st now c t hr ih =>
      intro e he
      rcases suspend_speaker_entries st now c t e he with h | h
      · exact ih e h
      · exact h
  | read st now c o n hr ih =>
      intro e he
      rcases read_entries st now c o n e he with h | h
      · exact ih e h
      · exact h
  | write st now c n v hr ih =>
      intro e he
      rcases write_entries st now c n v e he with h | h
      · exact ih e h
      · exact h
  | write_to st now c t n v hr ih =>
      intro e he
      rcases write_to_entries st now c t n v e he with h | h
      · exact ih e h
      · exact h
  | request st now c t a d tmo hr ih =>
      intro e he
      rcases request_entries st now c t a d tmo e he with h | h
      · exact ih e h
      · exact h
  | respond st now c rid acc d hr ih =>
      intro e he
      rcases respond_entries st now c rid acc d e he with h | h
      · exact ih e h
      · exact h
  | submit st now sid cond cl act afn ir su hr ih =>
      intro e he
      rcases submit_entries st now sid cond cl act afn ir su e he with h | h
      · exact ih e h
      · exact h
  | submit_loop st now sid cond cl act afn lc lm hr ih =>
      intro e he
      rcases submit_loop_entries st now sid cond cl act afn lc lm e he with h | h
      · exact ih e h
      · exact h

/-- C8 amended witness: the amended theorem applied to the reachable state
holding the concrete broken not_root entry. -/
theorem break_reasons_amended_witness : BreakReasonOk C8witnessEntry :=
  break_reasons_amended (Mary.suspend_speaker Mary.init 1 5 0).1
    (Reach.suspend_speaker _ 1 5 0 Reach.init) C8witnessEntry (by decide)

